import Mathlib

/-!
Verification development for the data-flow / reconciliation core of a static
analyzer for a gradually-typed scripting language.  The Rust sources are
shallowly embedded: hash maps become function-valued maps, hash sets become
duplicate-free lists (iteration order = insertion order), and panicking code
paths return `Option`.
-/

set_option maxHeartbeats 1000000

namespace Hakana

/-- Interned strings are modelled by the strings themselves (the interner is a
bijection, so nothing observable depends on the numeric ids). -/
abbrev StrId := String

/-- FilePath wraps an interned file-name id. -/
abbrev FilePath := Nat

/-- HPos: flattened source position (code_location.rs).  Only the fields the
embedded operations consult are kept. -/
structure HPos where
  file_path : FilePath
  start_offset : Nat
  end_offset : Nat
  deriving DecidableEq, Repr

inductive FunctionLikeIdentifier where
  | Function (name : StrId)
  | Method (classname : StrId) (method_name : StrId)
  deriving DecidableEq, Repr

abbrev MethodIdentifier := StrId × StrId

/-- Taint sink kinds (taint.rs); only the ones the claims mention are named,
the rest are carried by `Custom`. -/
inductive SinkType where
  | HtmlTag
  | HtmlAttributeUri
  | Custom (s : String)
  deriving DecidableEq, Repr

inductive SourceType where
  | UriRequestParameter
  | Custom (s : String)
  deriving DecidableEq, Repr

/-- data_flow/node.rs `DataFlowNodeId`. -/
inductive DataFlowNodeId where
  | Str (s : String)
  | LocalizedString (s : String) (fp : FilePath) (start_offset : Nat) (end_offset : Nat)
  | LocalizedArrayAssignment (fp : FilePath) (start_offset : Nat) (end_offset : Nat)
  | LocalizedArrayItem (key_value : String) (fp : FilePath) (start_offset : Nat) (end_offset : Nat)
  | LocalizedReturn (fp : FilePath) (start_offset : Nat) (end_offset : Nat)
  | ForInit (start_offset : Nat) (end_offset : Nat)
  | LocalizedComposition (fp : FilePath) (start_offset : Nat) (end_offset : Nat)
  | Var (var_id : String) (fp : FilePath) (start_offset : Nat) (end_offset : Nat)
  | VarNarrowedTo (var_id : String) (symbol : StrId) (fp : FilePath) (start_offset : Nat)
  | Param (var_id : String) (fp : FilePath) (start_offset : Nat) (end_offset : Nat)
  | ReferenceTo (f : FunctionLikeIdentifier)
  | CallTo (f : FunctionLikeIdentifier)
  | LocalizedCallTo (f : FunctionLikeIdentifier) (fp : FilePath) (start_offset : Nat)
  | FunctionLikeArg (f : FunctionLikeIdentifier) (arg : Nat)
  | LocalizedFunctionLikeArg (f : FunctionLikeIdentifier) (arg : Nat) (fp : FilePath) (start_offset : Nat)
  | Property (classlike_name : StrId) (property_name : StrId)
  | LocalizedProperty (classlike_name : StrId) (property_name : StrId) (fp : FilePath) (start_offset : Nat) (end_offset : Nat)
  | PropertyFetch (lhs_var_id : String) (property_name : StrId) (fp : FilePath) (start_offset : Nat)
  | FunctionLikeOut (f : FunctionLikeIdentifier) (arg : Nat)
  | LocalizedFunctionLikeOut (f : FunctionLikeIdentifier) (arg : Nat) (fp : FilePath) (start_offset : Nat)
  | ThisBeforeMethod (m : MethodIdentifier)
  | LocalizedThisBeforeMethod (m : MethodIdentifier) (fp : FilePath) (start_offset : Nat)
  | ThisAfterMethod (m : MethodIdentifier)
  | LocalizedThisAfterMethod (m : MethodIdentifier) (fp : FilePath) (start_offset : Nat)
  | Symbol (s : StrId)
  | ShapeFieldAccess (type_name : StrId) (key : String)
  deriving DecidableEq, Repr

/-- `DataFlowNodeId::localize`; the catch-all arm panics, hence `Option`. -/
def DataFlowNodeId.localize (id : DataFlowNodeId) (fp : FilePath) (offset : Nat) :
    Option DataFlowNodeId :=
  match id with
  | .CallTo f => some (.LocalizedCallTo f fp offset)
  | .FunctionLikeArg f arg => some (.LocalizedFunctionLikeArg f arg fp offset)
  | .FunctionLikeOut f arg => some (.LocalizedFunctionLikeOut f arg fp offset)
  | .ThisBeforeMethod m => some (.LocalizedThisBeforeMethod m fp offset)
  | .ThisAfterMethod m => some (.LocalizedThisAfterMethod m fp offset)
  | _ => none

/-- `DataFlowNodeId::unlocalize`; the catch-all arm panics, hence `Option`. -/
def DataFlowNodeId.unlocalize (id : DataFlowNodeId) : Option DataFlowNodeId :=
  match id with
  | .LocalizedCallTo f _ _ => some (.CallTo f)
  | .LocalizedFunctionLikeArg f arg _ _ => some (.FunctionLikeArg f arg)
  | .LocalizedFunctionLikeOut f arg _ _ => some (.FunctionLikeOut f arg)
  | .LocalizedThisBeforeMethod m _ _ => some (.ThisBeforeMethod m)
  | .LocalizedThisAfterMethod m _ _ => some (.ThisAfterMethod m)
  | _ => none

inductive VariableSourceKind where
  | Default
  | PrivateParam
  | NonPrivateParam
  | InoutParam
  | ClosureParam
  deriving DecidableEq, Repr

/-- data_flow/node.rs `DataFlowNodeKind`. -/
inductive DataFlowNodeKind where
  | Vertex (pos : Option HPos) (specialization_key : Option (FilePath × Nat))
  | VariableUseSource (pos : HPos) (kind : VariableSourceKind) (pure : Bool)
      (has_parent_nodes : Bool) (has_awaitable : Bool)
  | VariableUseSink (pos : HPos)
  | ForLoopInit (var_name : String) (start_offset : Nat) (end_offset : Nat)
  | DataSource (pos : HPos) (target_id : String)
  | TaintSource (pos : Option HPos) (types : List SourceType)
  | TaintSink (pos : Option HPos) (types : List SinkType)
  deriving DecidableEq, Repr

/-- data_flow/node.rs `DataFlowNode` (equality and hashing by id only in Rust;
where that matters, comparisons below go through `.id`). -/
structure DataFlowNode where
  id : DataFlowNodeId
  kind : DataFlowNodeKind
  deriving DecidableEq, Repr

inductive ArrayDataKind where
  | ArrayValue
  | ArrayKey
  deriving DecidableEq, Repr

/-- data_flow/path.rs `PathKind` (file not under src/; the variants are listed
verbatim in the specification's data-model section). -/
inductive PathKind where
  | Default
  | Aggregate
  | Serialize
  | ScalarTypeGuard
  | RemoveDictKey (key : String)
  | ArrayFetch (kind : ArrayDataKind) (key : String)
  | ArrayAssignment (kind : ArrayDataKind) (key : String)
  | UnknownArrayFetch (kind : ArrayDataKind)
  | UnknownArrayAssignment (kind : ArrayDataKind)
  deriving DecidableEq, Repr

structure DataFlowPath where
  kind : PathKind
  added_taints : List SinkType
  removed_taints : List SinkType
  deriving DecidableEq, Repr

inductive WholeProgramKind where
  | Taint
  | Query
  deriving DecidableEq, Repr

inductive GraphKind where
  | FunctionBody
  | WholeProgram (k : WholeProgramKind)
  deriving DecidableEq, Repr

/-- Insert into a hash set modelled as a duplicate-free list; iteration order
is insertion order. -/
def listInsert {α : Type} [DecidableEq α] (l : List α) (x : α) : List α :=
  if x ∈ l then l else l ++ [x]

/-- `HashSet::extend`: insert every element of `b` into `a`. -/
def listUnion {α : Type} [DecidableEq α] (a b : List α) : List α :=
  b.foldl listInsert a

/-- data_flow/graph.rs `DataFlowGraph`.  The hash maps are modelled as
function-valued maps; the hash sets as duplicate-free lists. -/
structure DataFlowGraph where
  kind : GraphKind
  vertices : DataFlowNodeId → Option DataFlowNode
  forward_edges : DataFlowNodeId → DataFlowNodeId → Option DataFlowPath
  backward_edges : DataFlowNodeId → List DataFlowNodeId
  sources : DataFlowNodeId → Option DataFlowNode
  sinks : DataFlowNodeId → Option DataFlowNode
  mixed_source_counts : DataFlowNodeId → List String
  specializations : DataFlowNodeId → List (FilePath × Nat)
  specialized_calls : FilePath × Nat → List DataFlowNodeId

/-- `DataFlowGraph::new`. -/
def DataFlowGraph.new (kind : GraphKind) : DataFlowGraph where
  kind := kind
  vertices := fun _ => none
  forward_edges := fun _ _ => none
  backward_edges := fun _ => []
  sources := fun _ => none
  sinks := fun _ => none
  mixed_source_counts := fun _ => []
  specializations := fun _ => []
  specialized_calls := fun _ => []

/-- `DataFlowGraph::add_node`.  In a whole-program graph a `Vertex` carrying a
specialization key registers its unlocalized id on both side tables; the
`unlocalize` call panics for a non-localizable id, hence `Option`. -/
def DataFlowGraph.add_node (g : DataFlowGraph) (node : DataFlowNode) :
    Option DataFlowGraph :=
  match node.kind with
  | .Vertex _ specialization_key =>
    match g.kind, specialization_key with
    | .WholeProgram _, some key =>
      match node.id.unlocalize with
      | none => none
      | some unspecialized_id =>
        some { g with
          specializations := fun i =>
            if i = unspecialized_id then listInsert (g.specializations i) key
            else g.specializations i
          specialized_calls := fun k =>
            if k = key then listInsert (g.specialized_calls k) unspecialized_id
            else g.specialized_calls k
          vertices := fun i => if i = node.id then some node else g.vertices i }
    | _, _ =>
      some { g with
        vertices := fun i => if i = node.id then some node else g.vertices i }
  | .TaintSource _ _ | .VariableUseSource _ _ _ _ _ | .DataSource _ _
  | .ForLoopInit _ _ _ =>
    some { g with
      sources := fun i => if i = node.id then some node else g.sources i }
  | .TaintSink _ _ | .VariableUseSink _ =>
    some { g with
      sinks := fun i => if i = node.id then some node else g.sinks i }

/-- `DataFlowGraph::add_path`: self-edges are dropped; backward edges are kept
only in function-body mode. -/
def DataFlowGraph.add_path (g : DataFlowGraph) (fromNode toNode : DataFlowNode)
    (path_kind : PathKind) (added_taints removed_taints : List SinkType) :
    DataFlowGraph :=
  let from_id := fromNode.id
  let to_id := toNode.id
  if from_id = to_id then g
  else
    { g with
      backward_edges :=
        if g.kind = GraphKind.FunctionBody then
          fun v =>
            if v = to_id then listInsert (g.backward_edges v) from_id
            else g.backward_edges v
        else g.backward_edges
      forward_edges := fun u v =>
        if u = from_id ∧ v = to_id then
          some ⟨path_kind, added_taints, removed_taints⟩
        else g.forward_edges u v }

/-- `DataFlowGraph::add_graph`: panics on a kind mismatch, hence `Option`.
Forward edges are unioned with the other graph's entries winning per
`(from, to)` pair; function-body mode also unions backward edges and mixed
source counts; whole-program mode unions `specializations` (and, notably,
does not touch `specialized_calls`). -/
def DataFlowGraph.add_graph (g : DataFlowGraph) (other : DataFlowGraph) :
    Option DataFlowGraph :=
  if g.kind ≠ other.kind then none
  else
    some { g with
      forward_edges := fun u v =>
        match other.forward_edges u v with
        | some p => some p
        | none => g.forward_edges u v
      backward_edges :=
        if g.kind = GraphKind.FunctionBody then
          fun v => listUnion (g.backward_edges v) (other.backward_edges v)
        else g.backward_edges
      mixed_source_counts :=
        if g.kind = GraphKind.FunctionBody then
          fun k => listUnion (g.mixed_source_counts k) (other.mixed_source_counts k)
        else g.mixed_source_counts
      specializations :=
        if g.kind = GraphKind.FunctionBody then g.specializations
        else fun k => listUnion (g.specializations k) (other.specializations k)
      vertices := fun i =>
        match other.vertices i with
        | some n => some n
        | none => g.vertices i
      sources := fun i =>
        match other.sources i with
        | some n => some n
        | none => g.sources i
      sinks := fun i =>
        match other.sinks i with
        | some n => some n
        | none => g.sinks i }

/-- node.rs `DataFlowNode::get_for_call`: a localized call-to id whose vertex
carries no specialization key. -/
def DataFlowNode.get_for_call (functionlike_id : FunctionLikeIdentifier)
    (assignment_location : HPos) : DataFlowNode where
  id := .LocalizedCallTo functionlike_id assignment_location.file_path
    assignment_location.start_offset
  kind := .Vertex (some assignment_location) none

/-- node.rs `DataFlowNode::get_for_method_return`. -/
def DataFlowNode.get_for_method_return (functionlike_id : FunctionLikeIdentifier)
    (pos : Option HPos) (specialization_location : Option HPos) : DataFlowNode :=
  match specialization_location with
  | some loc =>
    { id := .LocalizedCallTo functionlike_id loc.file_path loc.start_offset
      kind := .Vertex pos (some (loc.file_path, loc.start_offset)) }
  | none =>
    { id := .CallTo functionlike_id
      kind := .Vertex pos none }

/-- node.rs `DataFlowNode::get_for_method_argument`. -/
def DataFlowNode.get_for_method_argument (functionlike_id : FunctionLikeIdentifier)
    (argument_offset : Nat) (arg_location : Option HPos) (pos : Option HPos) :
    DataFlowNode :=
  match pos with
  | some p =>
    { id := .LocalizedFunctionLikeArg functionlike_id argument_offset p.file_path
        p.start_offset
      kind := .Vertex arg_location (some (p.file_path, p.start_offset)) }
  | none =>
    { id := .FunctionLikeArg functionlike_id argument_offset
      kind := .Vertex arg_location none }

/-- node.rs `DataFlowNode::get_for_lvar`; the reconciler's
`DataFlowNode::get_for_assignment` (its source file is not part of the
snapshot) is modelled from the spec as the same construction: a fresh `Var`
vertex at the assignment location. -/
def DataFlowNode.get_for_lvar (var_id : String) (assignment_location : HPos) :
    DataFlowNode where
  id := .Var var_id assignment_location.file_path assignment_location.start_offset
    assignment_location.end_offset
  kind := .Vertex (some assignment_location) none

/-- Modelled from the spec: `DataFlowNode::get_for_assignment` (called by the
reconciler and the `Shapes::removeKey` analyzer) is missing from the snapshot;
per §4.5(4) it produces "a single new node" for the assigned variable at the
assertion position, exactly the shape `get_for_lvar` builds. -/
def DataFlowNode.get_for_assignment (var_id : String) (assignment_location : HPos) :
    DataFlowNode :=
  DataFlowNode.get_for_lvar var_id assignment_location

/-- Insert a node into a `FxHashSet<DataFlowNode>`: Rust hashes and compares
nodes by id only, so deduplication is by id. -/
def nodeSetInsert (acc : List DataFlowNode) (n : DataFlowNode) : List DataFlowNode :=
  if acc.any (fun m => m.id = n.id) then acc else acc ++ [n]

/-- Inner loop of `get_origin_nodes` over `backward_edges[child]`: collects the
unvisited parent vertices/sources of `childId` and whether an already-visited
parent was seen.  When the matching forward edge's kind is in `ignore_paths`
the Rust code executes `break`, abandoning the remaining parent edges: the
accumulated results so far are returned unchanged. -/
def collectParents (g : DataFlowGraph) (ignore_paths : List PathKind)
    (visited : List DataFlowNodeId) (childId : DataFlowNodeId) :
    List DataFlowNodeId → List DataFlowNode → Bool → List DataFlowNode × Bool
  | [], acc, flag => (acc, flag)
  | from_id :: rest, acc, flag =>
    let ignoredHop :=
      match g.forward_edges from_id childId with
      | some path => ignore_paths.contains path.kind
      | none => false
    if ignoredHop then (acc, flag)
    else
      match g.vertices from_id with
      | some node =>
        if visited.contains from_id then
          collectParents g ignore_paths visited childId rest acc true
        else
          collectParents g ignore_paths visited childId rest (nodeSetInsert acc node) flag
      | none =>
        match g.sources from_id with
        | some node =>
          if visited.contains from_id then
            collectParents g ignore_paths visited childId rest acc true
          else
            collectParents g ignore_paths visited childId rest (nodeSetInsert acc node) flag
        | none => collectParents g ignore_paths visited childId rest acc flag

/-- Body of the `for child_node in child_nodes` loop of `get_origin_nodes`.
State: (visited ids, collected origins, next round's parent pool). -/
def processChild (g : DataFlowGraph) (ignore_paths : List PathKind)
    (st : List DataFlowNodeId × List DataFlowNode × List DataFlowNode)
    (child : DataFlowNode) :
    List DataFlowNodeId × List DataFlowNode × List DataFlowNode :=
  let (visited, origins, all_parent_nodes) := st
  if visited.contains child.id then (visited, origins, all_parent_nodes)
  else
    let visited' := visited ++ [child.id]
    let (new_parent_nodes, has_visited_a_parent_already) :=
      collectParents g ignore_paths visited' child.id (g.backward_edges child.id) [] false
    if new_parent_nodes.isEmpty then
      if !has_visited_a_parent_already then
        (visited', origins ++ [child], all_parent_nodes)
      else (visited', origins, all_parent_nodes)
    else
      let retained := new_parent_nodes.filter (fun f => !(visited'.contains f.id))
      (visited', origins, all_parent_nodes ++ retained)

/-- The `for _ in 0..50` bounded rounds of `get_origin_nodes`. -/
def originRounds (g : DataFlowGraph) (ignore_paths : List PathKind) :
    Nat → List DataFlowNode → List DataFlowNodeId → List DataFlowNode →
    List DataFlowNode
  | 0, _, _, origins => origins
  | fuel + 1, child_nodes, visited, origins =>
    let (visited', origins', parents) :=
      child_nodes.foldl (processChild g ignore_paths) (visited, origins, [])
    if parents.isEmpty then origins'
    else originRounds g ignore_paths fuel parents visited' origins'

/-- `DataFlowGraph::get_origin_nodes`. -/
def DataFlowGraph.get_origin_nodes (g : DataFlowGraph) (assignment_node : DataFlowNode)
    (ignore_paths : List PathKind) : List DataFlowNode :=
  originRounds g ignore_paths 50 [assignment_node] [] []

/-- Spec-words model of the parent-edge loop: per §4.4 "a hop is skipped when
the matching forward edge's kind is in `ignored_kinds`" — an ignored hop is
skipped (`continue`) and the child's remaining parent edges are still
explored, unlike the source's `break`. -/
def collectParentsSpecModel (g : DataFlowGraph) (ignore_paths : List PathKind)
    (visited : List DataFlowNodeId) (childId : DataFlowNodeId) :
    List DataFlowNodeId → List DataFlowNode → Bool → List DataFlowNode × Bool
  | [], acc, flag => (acc, flag)
  | from_id :: rest, acc, flag =>
    let ignoredHop :=
      match g.forward_edges from_id childId with
      | some path => ignore_paths.contains path.kind
      | none => false
    if ignoredHop then
      collectParentsSpecModel g ignore_paths visited childId rest acc flag
    else
      match g.vertices from_id with
      | some node =>
        if visited.contains from_id then
          collectParentsSpecModel g ignore_paths visited childId rest acc true
        else
          collectParentsSpecModel g ignore_paths visited childId rest
            (nodeSetInsert acc node) flag
      | none =>
        match g.sources from_id with
        | some node =>
          if visited.contains from_id then
            collectParentsSpecModel g ignore_paths visited childId rest acc true
          else
            collectParentsSpecModel g ignore_paths visited childId rest
              (nodeSetInsert acc node) flag
        | none => collectParentsSpecModel g ignore_paths visited childId rest acc flag

/-- Spec-words model of the child-processing step (identical to `processChild`
except for the skip-vs-break distinction in the parent loop). -/
def processChildSpecModel (g : DataFlowGraph) (ignore_paths : List PathKind)
    (st : List DataFlowNodeId × List DataFlowNode × List DataFlowNode)
    (child : DataFlowNode) :
    List DataFlowNodeId × List DataFlowNode × List DataFlowNode :=
  let (visited, origins, all_parent_nodes) := st
  if visited.contains child.id then (visited, origins, all_parent_nodes)
  else
    let visited' := visited ++ [child.id]
    let (new_parent_nodes, has_visited_a_parent_already) :=
      collectParentsSpecModel g ignore_paths visited' child.id
        (g.backward_edges child.id) [] false
    if new_parent_nodes.isEmpty then
      if !has_visited_a_parent_already then
        (visited', origins ++ [child], all_parent_nodes)
      else (visited', origins, all_parent_nodes)
    else
      let retained := new_parent_nodes.filter (fun f => !(visited'.contains f.id))
      (visited', origins, all_parent_nodes ++ retained)

/-- Spec-words model of the bounded rounds. -/
def originRoundsSpecModel (g : DataFlowGraph) (ignore_paths : List PathKind) :
    Nat → List DataFlowNode → List DataFlowNodeId → List DataFlowNode →
    List DataFlowNode
  | 0, _, _, origins => origins
  | fuel + 1, child_nodes, visited, origins =>
    let (visited', origins', parents) :=
      child_nodes.foldl (processChildSpecModel g ignore_paths) (visited, origins, [])
    if parents.isEmpty then origins'
    else originRoundsSpecModel g ignore_paths fuel parents visited' origins'

/-- Spec-words model of `get_origin_nodes` as §4.4 describes it: ignored hops
are skipped one at a time, other parent edges of the same child still count. -/
def getOriginNodesSpecModel (g : DataFlowGraph) (assignment_node : DataFlowNode)
    (ignore_paths : List PathKind) : List DataFlowNode :=
  originRoundsSpecModel g ignore_paths 50 [assignment_node] [] []

theorem mem_listInsert_iff {α : Type} [DecidableEq α] {l : List α} {x y : α} :
    y ∈ listInsert l x ↔ y ∈ l ∨ y = x := by
  unfold listInsert
  by_cases h : x ∈ l
  · simp only [if_pos h]
    constructor
    · exact fun hy => Or.inl hy
    · rintro (hy | rfl)
      · exact hy
      · exact h
  · simp only [if_neg h, List.mem_append, List.mem_singleton]

theorem mem_listInsert_self {α : Type} [DecidableEq α] (l : List α) (x : α) :
    x ∈ listInsert l x :=
  mem_listInsert_iff.mpr (Or.inr rfl)

theorem mem_listInsert_of_mem {α : Type} [DecidableEq α] {l : List α} {x y : α}
    (h : y ∈ l) : y ∈ listInsert l x :=
  mem_listInsert_iff.mpr (Or.inl h)

theorem mem_listUnion_iff {α : Type} [DecidableEq α] {a b : List α} {x : α} :
    x ∈ listUnion a b ↔ x ∈ a ∨ x ∈ b := by
  induction b generalizing a with
  | nil => simp [listUnion]
  | cons y ys ih =>
    show x ∈ listUnion (listInsert a y) ys ↔ _
    rw [ih, mem_listInsert_iff]
    simp only [List.mem_cons]
    tauto

/-- C1 (counterexample input): a localized call-to vertex that carries the
specialization key `(0, 5)`. -/
def c1node : DataFlowNode where
  id := .LocalizedCallTo (.Function "f") 0 5
  kind := .Vertex none (some (0, 5))

def c1empty : DataFlowGraph := DataFlowGraph.new (.WholeProgram .Taint)

def c1inserted : DataFlowGraph := (c1empty.add_node c1node).getD c1empty

def c1merged : DataFlowGraph := (c1empty.add_graph c1inserted).getD c1empty

/-- C1 (counterexample): the two-sided registration invariant is not preserved
by `add_graph`, and nodes built by `get_for_call` have localized call-to ids
but register nothing.  Merging a whole-program graph that satisfies the
invariant into an empty whole-program graph copies `specializations` but not
`specialized_calls`, so on the merged graph `specializations[call to f]`
contains `(0,5)` while `specialized_calls[(0,5)]` does not contain
`call to f`; and inserting a `get_for_call` node leaves `specializations`
empty at its unlocalized id. -/
theorem c1_counterexample :
    ((0, 5) ∈ c1merged.specializations (.CallTo (.Function "f")) ∧
      DataFlowNodeId.CallTo (.Function "f") ∉ c1merged.specialized_calls (0, 5)) ∧
    ((c1empty.add_node
        (DataFlowNode.get_for_call (.Function "f") ⟨0, 5, 8⟩)).getD c1empty).specializations
      (.CallTo (.Function "f")) = [] := by
  refine ⟨⟨?_, ?_⟩, ?_⟩ <;> decide

/-- C1 (amended): in a whole-program graph, `add_node` of any vertex carrying a
specialization key `(f,o)` registers both sides: `specializations[unspec]`
contains `(f,o)` and `specialized_calls[(f,o)]` contains the unlocalized id;
and `add_graph` preserves the `specializations` side only (the
`specialized_calls` table is not merged, and `get_for_call` nodes carry no
key, so the two-sided invariant is not preserved by merges). -/
theorem c1_add_node_registers_both_sides_and_merge_keeps_specializations :
    (∀ (g : DataFlowGraph) (wpk : WholeProgramKind) (node : DataFlowNode)
      (pos : Option HPos) (key : FilePath × Nat) (unspec : DataFlowNodeId)
      (g' : DataFlowGraph),
      g.kind = .WholeProgram wpk →
      node.kind = .Vertex pos (some key) →
      node.id.unlocalize = some unspec →
      g.add_node node = some g' →
      key ∈ g'.specializations unspec ∧ unspec ∈ g'.specialized_calls key) ∧
    (∀ (g other merged : DataFlowGraph) (wpk : WholeProgramKind)
      (id : DataFlowNodeId) (key : FilePath × Nat),
      g.kind = .WholeProgram wpk →
      g.add_graph other = some merged →
      key ∈ other.specializations id →
      key ∈ merged.specializations id) := by
  constructor
  · intro g wpk node pos key unspec g' hkind hnode hunloc hadd
    obtain ⟨nid, nkind⟩ := node
    simp only at hnode
    subst hnode
    simp only at hunloc
    simp only [DataFlowGraph.add_node, hkind, hunloc, Option.some.injEq] at hadd
    subst hadd
    constructor
    · show key ∈ (if unspec = unspec then _ else _)
      rw [if_pos rfl]
      exact mem_listInsert_self _ _
    · show unspec ∈ (if key = key then _ else _)
      rw [if_pos rfl]
      exact mem_listInsert_self _ _
  · intro g other merged wpk id key hkind hmerge hmem
    simp only [DataFlowGraph.add_graph] at hmerge
    by_cases hk : g.kind ≠ other.kind
    · rw [if_pos hk] at hmerge
      exact absurd hmerge (by simp)
    · rw [if_neg hk, Option.some.injEq] at hmerge
      subst hmerge
      dsimp only
      rw [if_neg (by simp [hkind])]
      exact mem_listUnion_iff.mpr (Or.inr hmem)

/-- C1 (witness input): an empty whole-program graph plus the key-carrying
vertex `c1node`. -/
theorem c1_witness :
    (0, 5) ∈ c1inserted.specializations (.CallTo (.Function "f")) ∧
    DataFlowNodeId.CallTo (.Function "f") ∈ c1inserted.specialized_calls (0, 5) :=
  c1_add_node_registers_both_sides_and_merge_keeps_specializations.1
    c1empty .Taint c1node none (0, 5) (.CallTo (.Function "f")) c1inserted
    rfl rfl rfl rfl

/-- Closure of function-body graphs under the edge-building operations: the
empty graph, `add_path`, and `add_graph` of two built graphs. -/
inductive BuiltFunctionBody : DataFlowGraph → Prop where
  | new : BuiltFunctionBody (DataFlowGraph.new .FunctionBody)
  | add_path (g : DataFlowGraph) (a b : DataFlowNode) (k : PathKind)
      (ad rm : List SinkType) :
      BuiltFunctionBody g → BuiltFunctionBody (g.add_path a b k ad rm)
  | add_graph (g h g' : DataFlowGraph) :
      BuiltFunctionBody g → BuiltFunctionBody h → g.add_graph h = some g' →
      BuiltFunctionBody g'

theorem add_path_self_eq (g : DataFlowGraph) (a b : DataFlowNode) (k : PathKind)
    (ad rm : List SinkType) (h : a.id = b.id) : g.add_path a b k ad rm = g := by
  simp only [DataFlowGraph.add_path]
  rw [if_pos h]

theorem add_path_forward_of_ne (g : DataFlowGraph) (a b : DataFlowNode)
    (k : PathKind) (ad rm : List SinkType) (h : a.id ≠ b.id)
    (u v : DataFlowNodeId) :
    (g.add_path a b k ad rm).forward_edges u v =
      if u = a.id ∧ v = b.id then some ⟨k, ad, rm⟩ else g.forward_edges u v := by
  simp only [DataFlowGraph.add_path]
  rw [if_neg h]

theorem add_path_backward_of_ne (g : DataFlowGraph) (a b : DataFlowNode)
    (k : PathKind) (ad rm : List SinkType) (h : a.id ≠ b.id)
    (hk : g.kind = .FunctionBody) (v : DataFlowNodeId) :
    (g.add_path a b k ad rm).backward_edges v =
      if v = b.id then listInsert (g.backward_edges v) a.id
      else g.backward_edges v := by
  simp only [DataFlowGraph.add_path]
  rw [if_neg h]
  dsimp only
  rw [if_pos hk]

theorem add_path_kind (g : DataFlowGraph) (a b : DataFlowNode) (k : PathKind)
    (ad rm : List SinkType) : (g.add_path a b k ad rm).kind = g.kind := by
  simp only [DataFlowGraph.add_path]
  by_cases h : a.id = b.id
  · rw [if_pos h]
  · rw [if_neg h]

theorem add_graph_some {g other merged : DataFlowGraph}
    (h : g.add_graph other = some merged) :
    g.kind = other.kind ∧
    merged.kind = g.kind ∧
    (∀ u v, merged.forward_edges u v =
      match other.forward_edges u v with
      | some p => some p
      | none => g.forward_edges u v) ∧
    (g.kind = .FunctionBody →
      ∀ v, merged.backward_edges v =
        listUnion (g.backward_edges v) (other.backward_edges v)) := by
  simp only [DataFlowGraph.add_graph] at h
  by_cases hk : g.kind ≠ other.kind
  · rw [if_pos hk] at h
    exact absurd h (by simp)
  · rw [if_neg hk, Option.some.injEq] at h
    subst h
    refine ⟨not_not.mp hk, rfl, fun u v => rfl, fun hfb v => ?_⟩
    dsimp only
    rw [if_pos hfb]

theorem builtFunctionBody_kind {g : DataFlowGraph} (hb : BuiltFunctionBody g) :
    g.kind = .FunctionBody := by
  induction hb with
  | new => rfl
  | add_path g a b k ad rm hg ih => rw [add_path_kind]; exact ih
  | add_graph g h g' hg hh hmerge ihg ihh =>
    rw [(add_graph_some hmerge).2.1]
    exact ihg

/-- C2: in any function-body graph built by a sequence of `add_path` and
`add_graph` operations, every stored forward edge `(u → v)` has its reverse
entry `u ∈ backward_edges[v]`, and no self-edge is ever present. -/
theorem c2_backward_edge_invariant {g : DataFlowGraph} (hb : BuiltFunctionBody g) :
    (∀ u v p, g.forward_edges u v = some p → u ∈ g.backward_edges v) ∧
    (∀ u, g.forward_edges u u = none) := by
  induction hb with
  | new =>
    refine ⟨fun u v p h => ?_, fun u => rfl⟩
    exact Option.noConfusion h
  | add_path g a b k ad rm hg ih =>
    have hkind := builtFunctionBody_kind hg
    by_cases heq : a.id = b.id
    · rw [add_path_self_eq g a b k ad rm heq]
      exact ih
    · refine ⟨?_, ?_⟩
      · intro u v p hfwd
        rw [add_path_forward_of_ne g a b k ad rm heq] at hfwd
        rw [add_path_backward_of_ne g a b k ad rm heq hkind]
        by_cases hc : u = a.id ∧ v = b.id
        · rw [if_pos hc.2]
          rw [hc.1]
          exact mem_listInsert_self _ _
        · rw [if_neg hc] at hfwd
          have hmem := ih.1 u v p hfwd
          by_cases hv : v = b.id
          · rw [if_pos hv]
            exact mem_listInsert_of_mem hmem
          · rw [if_neg hv]
            exact hmem
      · intro u
        rw [add_path_forward_of_ne g a b k ad rm heq]
        rw [if_neg (by rintro ⟨rfl, h2⟩; exact heq h2)]
        exact ih.2 u
  | add_graph g h g' hg hh hmerge ihg ihh =>
    have hkg := builtFunctionBody_kind hg
    obtain ⟨hkinds, hmk, hfwd, hbwd⟩ := add_graph_some hmerge
    refine ⟨?_, ?_⟩
    · intro u v p hf
      rw [hfwd u v] at hf
      rw [hbwd hkg v, mem_listUnion_iff]
      cases hcase : h.forward_edges u v with
      | some q =>
        rw [hcase] at hf
        exact Or.inr (ihh.1 u v q hcase)
      | none =>
        rw [hcase] at hf
        exact Or.inl (ihg.1 u v p hf)
    · intro u
      rw [hfwd u u, ihh.2 u, ihg.2 u]

/-- C2 (witness inputs): two distinct variable nodes. -/
def c2nodeA : DataFlowNode := DataFlowNode.get_for_lvar "$a" ⟨0, 1, 2⟩

def c2nodeB : DataFlowNode := DataFlowNode.get_for_lvar "$b" ⟨0, 3, 4⟩

def c2graph : DataFlowGraph :=
  (DataFlowGraph.new .FunctionBody).add_path c2nodeA c2nodeB .Default [] []

/-- C2 (witness): on the concrete one-edge graph the invariant yields the
backward entry and the absence of the self-edge. -/
theorem c2_backward_edge_invariant_witness :
    c2nodeA.id ∈ c2graph.backward_edges c2nodeB.id ∧
    c2graph.forward_edges c2nodeA.id c2nodeA.id = none := by
  have hb : BuiltFunctionBody c2graph :=
    BuiltFunctionBody.add_path _ _ _ _ _ _ BuiltFunctionBody.new
  exact ⟨(c2_backward_edge_invariant hb).1 c2nodeA.id c2nodeB.id ⟨.Default, [], []⟩
      (by decide), (c2_backward_edge_invariant hb).2 c2nodeA.id⟩

/-- C3 (counterexample inputs): a child `$c` with two parent edges, the first
one (`$p1 → $c`) of an ignored kind, the second (`$p2 → $c`) of kind
`Default`. -/
def c3p1 : DataFlowNode := DataFlowNode.get_for_lvar "$p1" ⟨0, 1, 2⟩

def c3p2 : DataFlowNode := DataFlowNode.get_for_lvar "$p2" ⟨0, 3, 4⟩

def c3c : DataFlowNode := DataFlowNode.get_for_lvar "$c" ⟨0, 5, 6⟩

def c3g : DataFlowGraph :=
  let g0 := DataFlowGraph.new .FunctionBody
  let g1 := (g0.add_node c3p1).getD g0
  let g2 := (g1.add_node c3p2).getD g1
  let g3 := g2.add_path c3p1 c3c .ScalarTypeGuard [] []
  g3.add_path c3p2 c3c .Default [] []

/-- C3 (counterexample): with `ScalarTypeGuard` ignored, the source's `break`
abandons `$c`'s remaining parent edges, so `$p2` is never explored and `$c`
itself is returned as the only origin; under the specification's skip-the-hop
reading the origin is `$p2`.  The two results differ. -/
theorem c3_counterexample :
    c3g.get_origin_nodes c3c [.ScalarTypeGuard] = [c3c] ∧
    getOriginNodesSpecModel c3g c3c [.ScalarTypeGuard] = [c3p2] ∧
    ([c3c] : List DataFlowNode) ≠ [c3p2] := by
  refine ⟨?_, ?_, ?_⟩ <;> decide

/-- C3 (amended): `get_origin_nodes` performs a backward search bounded at 50
rounds that records visited nodes, but a parent edge whose matching forward
edge's kind is in the ignored kinds stops (`break`) the iteration over the
child's parent set: when the first listed parent edge of the start node is of
an ignored kind, none of the node's parents are explored and the start node
itself is returned as the sole origin. -/
theorem c3_ignored_hop_stops_parent_exploration
    (g : DataFlowGraph) (child : DataFlowNode) (ig : List PathKind)
    (f : DataFlowNodeId) (rest : List DataFlowNodeId) (p : DataFlowPath)
    (hback : g.backward_edges child.id = f :: rest)
    (hfwd : g.forward_edges f child.id = some p)
    (hig : ig.contains p.kind = true) :
    g.get_origin_nodes child ig = [child] := by
  have hcollect : collectParents g ig [child.id] child.id (f :: rest) [] false
      = ([], false) := by
    unfold collectParents
    rw [hfwd]
    simp only [hig, if_true]
  unfold DataFlowGraph.get_origin_nodes
  unfold originRounds
  simp only [List.foldl]
  unfold processChild
  simp only [List.contains, List.elem, Bool.false_eq_true, if_false,
    List.nil_append]
  rw [hback, hcollect]
  simp

/-- C3 (witness): the amended break-behaviour theorem applied to the concrete
graph `c3g`. -/
theorem c3_ignored_hop_stops_parent_exploration_witness :
    c3g.get_origin_nodes c3c [.ScalarTypeGuard] = [c3c] :=
  c3_ignored_hop_stops_parent_exploration c3g c3c [.ScalarTypeGuard]
    c3p1.id [c3p2.id] ⟨.ScalarTypeGuard, [], []⟩ (by decide) (by decide) (by decide)

/-- t_atomic.rs `DictKey` (the `String` variant is spelled `Str` here because
`String` cannot shadow the builtin). -/
inductive DictKey where
  | Int (n : Nat)
  | Str (s : String)
  deriving DecidableEq, Repr

mutual
/-- t_atomic.rs `TAtomic`, restricted to the variants the verified claims
exercise (templates, enums, closures and classname types are omitted). -/
inductive TAtomic : Type where
  | TNothing
  | TNull
  | TMixed
  | TMixedAny
  | TTruthyMixed
  | TFalsyMixed
  | TNonnullMixed
  | TMixedFromLoopIsset
  | TInt
  | TFloat
  | TBool
  | TTrue
  | TFalse
  | TString
  | TLiteralInt (value : Int)
  | TLiteralString (value : String)
  | TStringWithFlags (is_truthy : Bool) (is_non_empty : Bool) (all_literal : Bool)
  | TDict (known_items : Option (List (DictKey × Bool × TUnion)))
      (params : Option (TUnion × TUnion)) (non_empty : Bool)
  | TVec (known_items : Option (List (Nat × Bool × TUnion))) (type_param : TUnion)
      (non_empty : Bool)
  | TKeyset (type_param : TUnion)
  | TNamedObject (name : StrId) (type_params : Option (List TUnion))
  | TTypeAlias (name : StrId) (as_type : Option TAtomic)
  | TObject
/-- t_union.rs `TUnion`: an atomic list plus provenance parent nodes and the
two flags the claims touch. -/
inductive TUnion : Type where
  | mk (types : List TAtomic) (parent_nodes : List DataFlowNode)
      (possibly_undefined : Bool) (ignore_falsable_issues : Bool) : TUnion
end

def TUnion.types : TUnion → List TAtomic
  | .mk t _ _ _ => t

def TUnion.parent_nodes : TUnion → List DataFlowNode
  | .mk _ pn _ _ => pn

def TUnion.possibly_undefined : TUnion → Bool
  | .mk _ _ pu _ => pu

def TUnion.ignore_falsable_issues : TUnion → Bool
  | .mk _ _ _ ifi => ifi

def TUnion.withTypes : TUnion → List TAtomic → TUnion
  | .mk _ pn pu ifi, t => .mk t pn pu ifi

def TUnion.withParentNodes : TUnion → List DataFlowNode → TUnion
  | .mk t _ pu ifi, pn => .mk t pn pu ifi

mutual
/-- Structural equality on atomics (the Rust `PartialEq` derive). -/
def TAtomic.beq : TAtomic → TAtomic → Bool
  | .TNothing, .TNothing => true
  | .TNull, .TNull => true
  | .TMixed, .TMixed => true
  | .TMixedAny, .TMixedAny => true
  | .TTruthyMixed, .TTruthyMixed => true
  | .TFalsyMixed, .TFalsyMixed => true
  | .TNonnullMixed, .TNonnullMixed => true
  | .TMixedFromLoopIsset, .TMixedFromLoopIsset => true
  | .TInt, .TInt => true
  | .TFloat, .TFloat => true
  | .TBool, .TBool => true
  | .TTrue, .TTrue => true
  | .TFalse, .TFalse => true
  | .TString, .TString => true
  | .TLiteralInt v1, .TLiteralInt v2 => v1 == v2
  | .TLiteralString v1, .TLiteralString v2 => v1 == v2
  | .TStringWithFlags a1 b1 c1, .TStringWithFlags a2 b2 c2 =>
    a1 == a2 && b1 == b2 && c1 == c2
  | .TDict ki1 p1 ne1, .TDict ki2 p2 ne2 =>
    dictItemsOptBeq ki1 ki2 && dictParamsOptBeq p1 p2 && ne1 == ne2
  | .TVec ki1 t1 ne1, .TVec ki2 t2 ne2 =>
    vecItemsOptBeq ki1 ki2 && TUnion.beq t1 t2 && ne1 == ne2
  | .TKeyset t1, .TKeyset t2 => TUnion.beq t1 t2
  | .TNamedObject n1 tp1, .TNamedObject n2 tp2 =>
    n1 == n2 && unionListOptBeq tp1 tp2
  | .TTypeAlias n1 a1, .TTypeAlias n2 a2 => n1 == n2 && atomicOptBeq a1 a2
  | .TObject, .TObject => true
  | _, _ => false
  termination_by structural a => a
def atomicOptBeq : Option TAtomic → Option TAtomic → Bool
  | none, none => true
  | some a, some b => TAtomic.beq a b
  | _, _ => false
  termination_by structural a => a
def dictItemsOptBeq : Option (List (DictKey × Bool × TUnion)) →
    Option (List (DictKey × Bool × TUnion)) → Bool
  | none, none => true
  | some a, some b => dictItemsListBeq a b
  | _, _ => false
  termination_by structural a => a
def dictItemsListBeq : List (DictKey × Bool × TUnion) →
    List (DictKey × Bool × TUnion) → Bool
  | [], [] => true
  | (k1, pu1, v1) :: r1, (k2, pu2, v2) :: r2 =>
    k1 == k2 && pu1 == pu2 && TUnion.beq v1 v2 && dictItemsListBeq r1 r2
  | _, _ => false
  termination_by structural a => a
def vecItemsOptBeq : Option (List (Nat × Bool × TUnion)) →
    Option (List (Nat × Bool × TUnion)) → Bool
  | none, none => true
  | some a, some b => vecItemsListBeq a b
  | _, _ => false
  termination_by structural a => a
def vecItemsListBeq : List (Nat × Bool × TUnion) → List (Nat × Bool × TUnion) → Bool
  | [], [] => true
  | (k1, pu1, v1) :: r1, (k2, pu2, v2) :: r2 =>
    k1 == k2 && pu1 == pu2 && TUnion.beq v1 v2 && vecItemsListBeq r1 r2
  | _, _ => false
  termination_by structural a => a
def dictParamsOptBeq : Option (TUnion × TUnion) → Option (TUnion × TUnion) → Bool
  | none, none => true
  | some p1, some p2 => TUnion.beq p1.1 p2.1 && TUnion.beq p1.2 p2.2
  | _, _ => false
  termination_by structural a => a
def unionListOptBeq : Option (List TUnion) → Option (List TUnion) → Bool
  | none, none => true
  | some a, some b => unionListBeq a b
  | _, _ => false
  termination_by structural a => a
def unionListBeq : List TUnion → List TUnion → Bool
  | [], [] => true
  | a :: r1, b :: r2 => TUnion.beq a b && unionListBeq r1 r2
  | _, _ => false
  termination_by structural a => a
def atomicListBeq : List TAtomic → List TAtomic → Bool
  | [], [] => true
  | a :: r1, b :: r2 => TAtomic.beq a b && atomicListBeq r1 r2
  | _, _ => false
  termination_by structural a => a
/-- Structural equality on unions (the Rust `PartialEq` derive; used for the
reconciler's `type_changed` test). -/
def TUnion.beq : TUnion → TUnion → Bool
  | .mk t1 pn1 pu1 ifi1, .mk t2 pn2 pu2 ifi2 =>
    atomicListBeq t1 t2 && pn1 == pn2 && pu1 == pu2 && ifi1 == ifi2
  termination_by structural a => a
end

/-- assertion.rs `Assertion` (file outside the snapshot; the variant list is
given verbatim in the spec's data model). -/
inductive Assertion where
  | IsType (t : TAtomic)
  | IsNotType (t : TAtomic)
  | IsEqual (t : TAtomic)
  | IsNotEqual (t : TAtomic)
  | Truthy
  | Falsy
  | IsIsset
  | IsNotIsset
  | IsEqualIsset
  | HasArrayKey (key : String)
  | ArrayKeyExists
  | ArrayKeyDoesNotExist
  | NonEmptyCountable (b : Bool)
  | HasStringArrayAccess
  | HasIntOrStringArrayAccess
  | IgnoreTaints
  | DontIgnoreTaints
  | RemoveTaints (key : String) (taints : List SinkType)

/-- Modelled from the spec: `Assertion::has_negation` (assertion.rs is outside
the snapshot); negated variants answer true. -/
def Assertion.has_negation : Assertion → Bool
  | .IsNotType _ | .IsNotEqual _ | .Falsy | .IsNotIsset | .ArrayKeyDoesNotExist
  | .DontIgnoreTaints => true
  | _ => false

/-- Modelled from the spec: `Assertion::has_isset`; the isset family answers
true. -/
def Assertion.has_isset : Assertion → Bool
  | .IsIsset | .IsEqualIsset | .ArrayKeyExists | .HasStringArrayAccess
  | .HasIntOrStringArrayAccess => true
  | _ => false

/-- Modelled from the spec: `Assertion::has_non_isset_equality`. -/
def Assertion.has_non_isset_equality : Assertion → Bool
  | .IsEqual _ | .IsNotEqual _ => true
  | _ => false

/-- Modelled from the spec: `TAtomic::is_some_scalar` (t_atomic.rs is outside
the snapshot): primitive scalars, their literal singletons and flagged
strings. -/
def TAtomic.is_some_scalar : TAtomic → Bool
  | .TInt | .TFloat | .TBool | .TTrue | .TFalse | .TString | .TLiteralInt _
  | .TLiteralString _ | .TStringWithFlags _ _ _ => true
  | _ => false

def TAtomic.isMixedFamily : TAtomic → Bool
  | .TMixed | .TMixedAny | .TTruthyMixed | .TFalsyMixed | .TNonnullMixed
  | .TMixedFromLoopIsset => true
  | _ => false

/-- t_union.rs `is_mixed`: a single mixed-family atomic. -/
def TUnion.is_mixed (u : TUnion) : Bool :=
  match u.types with
  | [t] => t.isMixedFamily
  | _ => false

/-- t_union.rs `is_nothing`: a single `TNothing` atomic. -/
def TUnion.is_nothing (u : TUnion) : Bool :=
  match u.types with
  | [.TNothing] => true
  | _ => false

/-- t_union.rs `is_nullable`: some atomic is `TNull`. -/
def TUnion.is_nullable (u : TUnion) : Bool :=
  u.types.any fun t => t.beq .TNull

/-- t_union.rs `add_type`: push an atomic (deduplicated structurally, the
Rust collection is keyed by discriminator). -/
def TUnion.add_type (u : TUnion) (t : TAtomic) : TUnion :=
  if u.types.any (fun s => s.beq t) then u else u.withTypes (u.types ++ [t])

/-- hakana_type `wrap_atomic`. -/
def wrap_atomic (t : TAtomic) : TUnion := .mk [t] [] false false

def get_nothing : TUnion := wrap_atomic .TNothing

def get_null : TUnion := wrap_atomic .TNull

def get_string : TUnion := wrap_atomic .TString

def get_mixed_any : TUnion := wrap_atomic .TMixedAny

/-- hakana_type `get_mixed_maybe_from_loop`. -/
def get_mixed_maybe_from_loop (inside_loop : Bool) : TUnion :=
  if inside_loop then wrap_atomic .TMixedFromLoopIsset else wrap_atomic .TMixed

/-- Modelled from the spec: hakana_type `get_value_param` (outside the
snapshot) — the value parameter of a container atomic: a dict's value param
(`nothing` when it has only known items), a vec's or keyset's element. -/
def get_value_param : TAtomic → Option TUnion
  | .TDict _ (some p) _ => some p.2
  | .TDict _ none _ => some get_nothing
  | .TVec _ tp _ => some tp
  | .TKeyset tp => some tp
  | _ => none

/-- Modelled from the spec: `add_union_type` (type_combiner is outside the
snapshot).  Per §4.1 the atomics are coalesced (modelled here as removing
structural duplicates), parent-node sets are unioned, and the
`possibly_undefined` / `ignore_falsable_issues` flags are ORed. -/
def add_union_type (a : TUnion) (b : TUnion) : TUnion :=
  .mk (a.types ++ b.types.filter (fun t => !(a.types.any (fun s => s.beq t))))
    (listUnion a.parent_nodes b.parent_nodes)
    (a.possibly_undefined || b.possibly_undefined)
    (a.ignore_falsable_issues || b.ignore_falsable_issues)

/-- `vars_in_scope` lookup (the map is modelled as an association list). -/
def varsGet (vars : List (String × TUnion)) (k : String) : Option TUnion :=
  (vars.find? fun p => p.1 = k).map (·.2)

/-- `vars_in_scope` insert-or-replace. -/
def varsInsert (vars : List (String × TUnion)) (k : String) (v : TUnion) :
    List (String × TUnion) :=
  (k, v) :: vars.filter fun p => ¬(p.1 = k)

/-- `vars_in_scope` removal. -/
def varsRemove (vars : List (String × TUnion)) (k : String) :
    List (String × TUnion) :=
  vars.filter fun p => ¬(p.1 = k)

theorem varsGet_insert_self (vars : List (String × TUnion)) (k : String)
    (v : TUnion) : varsGet (varsInsert vars k v) k = some v := by
  simp [varsGet, varsInsert]

theorem varsGet_insert_ne (vars : List (String × TUnion)) (k k' : String)
    (v : TUnion) (h : k' ≠ k) :
    varsGet (varsInsert vars k v) k' = varsGet vars k' := by
  simp only [varsGet, varsInsert]
  rw [List.find?_cons_of_neg _ (by simp; exact Ne.symm h)]
  induction vars with
  | nil => rfl
  | cons p rest ih =>
    rw [List.filter_cons]
    by_cases hp : p.1 = k
    · rw [if_neg (by simp [hp])]
      rw [List.find?_cons_of_neg _ (by simp [hp]; exact Ne.symm h)]
      exact ih
    · rw [if_pos (by simp [hp])]
      by_cases hk' : p.1 = k'
      · rw [List.find?_cons_of_pos _ (by simp [hk']),
          List.find?_cons_of_pos _ (by simp [hk'])]
      · rw [List.find?_cons_of_neg _ (by simp [hk']),
          List.find?_cons_of_neg _ (by simp [hk'])]
        exact ih

/-- `Shapes::removeKey`'s per-atomic mutation
(existing_atomic_method_call_analyzer.rs:197-205): dicts with known items drop
the entry for the key; everything else is untouched. -/
def removeKeyFromAtomic (dim_var_id : String) : TAtomic → TAtomic
  | .TDict (some known_items) params non_empty =>
    .TDict (some (known_items.filter fun it => ¬(it.1 = DictKey.Str dim_var_id)))
      params non_empty
  | a => a

/-- existing_atomic_method_call_analyzer.rs:182-230, the `HH\Shapes::removeKey`
special case: strip the quotes off the literal dim, drop the known item from
every dict atomic, rewire provenance to a fresh assignment node with
`RemoveDictKey` edges from every old parent, and commit the new type. -/
def shapes_remove_key (tast_graph : DataFlowGraph)
    (vars_in_scope : List (String × TUnion)) (expr_var_id : String)
    (dim_var_id_quoted : String) (arg0_pos : HPos) :
    Option (DataFlowGraph × List (String × TUnion)) :=
  match varsGet vars_in_scope expr_var_id with
  | none => some (tast_graph, vars_in_scope)
  | some expr_type =>
    let dim_var_id := (dim_var_id_quoted.drop 1).dropRight 1
    let new_type0 := expr_type.withTypes
      (expr_type.types.map (removeKeyFromAtomic dim_var_id))
    let assignment_node := DataFlowNode.get_for_assignment expr_var_id arg0_pos
    let g1 := expr_type.parent_nodes.foldl
      (fun g parent_node =>
        g.add_path parent_node assignment_node (.RemoveDictKey dim_var_id) [] [])
      tast_graph
    let new_type := new_type0.withParentNodes [assignment_node]
    match g1.add_node assignment_node with
    | none => none
    | some g2 => some (g2, varsInsert vars_in_scope expr_var_id new_type)

/-- Does a dict atomic still have a known item for a (string) key. -/
def dictHasKnownKey (a : TAtomic) (dim_var_id : String) : Bool :=
  match a with
  | .TDict (some known_items) _ _ =>
    known_items.any fun it => it.1 = DictKey.Str dim_var_id
  | _ => false

theorem removeKeyFromAtomic_clears (dim_var_id : String) (a : TAtomic) :
    dictHasKnownKey (removeKeyFromAtomic dim_var_id a) dim_var_id = false := by
  cases a with
  | TDict ki params ne =>
    cases ki with
    | none => rfl
    | some items =>
      simp [removeKeyFromAtomic, dictHasKnownKey, List.any_eq_true]
  | _ => rfl

theorem add_node_preserves_forward {g g' : DataFlowGraph} {n : DataFlowNode}
    (h : g.add_node n = some g') : g'.forward_edges = g.forward_edges := by
  obtain ⟨nid, nkind⟩ := n
  cases nkind with
  | Vertex pos key =>
    cases hk : g.kind with
    | FunctionBody =>
      simp only [DataFlowGraph.add_node, hk, Option.some.injEq] at h
      subst h
      rfl
    | WholeProgram wpk =>
      cases key with
      | none =>
        simp only [DataFlowGraph.add_node, hk, Option.some.injEq] at h
        subst h
        rfl
      | some k =>
        simp only [DataFlowGraph.add_node, hk] at h
        cases hu : DataFlowNodeId.unlocalize nid with
        | none => rw [hu] at h; cases h
        | some unspec =>
          rw [hu] at h
          rw [Option.some.injEq] at h
          subst h
          rfl
  | VariableUseSource a b c d e =>
    simp only [DataFlowGraph.add_node, Option.some.injEq] at h
    subst h; rfl
  | VariableUseSink a =>
    simp only [DataFlowGraph.add_node, Option.some.injEq] at h
    subst h; rfl
  | ForLoopInit a b c =>
    simp only [DataFlowGraph.add_node, Option.some.injEq] at h
    subst h; rfl
  | DataSource a b =>
    simp only [DataFlowGraph.add_node, Option.some.injEq] at h
    subst h; rfl
  | TaintSource a b =>
    simp only [DataFlowGraph.add_node, Option.some.injEq] at h
    subst h; rfl
  | TaintSink a b =>
    simp only [DataFlowGraph.add_node, Option.some.injEq] at h
    subst h; rfl

theorem foldl_add_path_edge (node : DataFlowNode) (kind : PathKind)
    (ps : List DataFlowNode) (p : DataFlowNode) (hne : p.id ≠ node.id) :
    ∀ g : DataFlowGraph,
      (p ∈ ps ∨ g.forward_edges p.id node.id = some ⟨kind, [], []⟩) →
      (ps.foldl (fun acc q => acc.add_path q node kind [] []) g).forward_edges
        p.id node.id = some ⟨kind, [], []⟩ := by
  induction ps with
  | nil =>
    intro g hstart
    rcases hstart with h | h
    · cases h
    · exact h
  | cons q rest ih =>
    intro g hstart
    simp only [List.foldl]
    apply ih
    rcases hstart with hmem | hedge
    · rcases List.mem_cons.mp hmem with rfl | hmem'
      · right
        rw [add_path_forward_of_ne _ _ _ _ _ _ hne]
        rw [if_pos ⟨rfl, rfl⟩]
      · left
        exact hmem'
    · right
      by_cases hq : q.id = node.id
      · rw [add_path_self_eq _ _ _ _ _ _ hq]
        exact hedge
      · rw [add_path_forward_of_ne _ _ _ _ _ _ hq]
        by_cases hc : p.id = q.id ∧ node.id = node.id
        · rw [if_pos hc]
        · rw [if_neg hc]
          exact hedge

/-- C7: for a call `HH\Shapes::removeKey($s, 'k')` where `$s` is in scope,
afterwards `$s`'s type in scope has no known item for `k` in any of its dict
atomics, a fresh assignment node is its sole parent node, and the graph has a
`RemoveDictKey("k")` edge from each (distinct-id) pre-call parent node of `$s`
to that assignment node. -/
theorem c7_shapes_remove_key_effect (tast_graph : DataFlowGraph)
    (vars_in_scope : List (String × TUnion)) (expr_var_id dim_var_id_quoted : String)
    (arg0_pos : HPos) (expr_type : TUnion) (g' : DataFlowGraph)
    (vars' : List (String × TUnion))
    (hget : varsGet vars_in_scope expr_var_id = some expr_type)
    (hrun : shapes_remove_key tast_graph vars_in_scope expr_var_id
      dim_var_id_quoted arg0_pos = some (g', vars')) :
    (∃ new_type, varsGet vars' expr_var_id = some new_type ∧
      new_type.parent_nodes = [DataFlowNode.get_for_assignment expr_var_id arg0_pos] ∧
      ∀ a ∈ new_type.types,
        dictHasKnownKey a ((dim_var_id_quoted.drop 1).dropRight 1) = false) ∧
    (∀ parent ∈ expr_type.parent_nodes,
      parent.id ≠ (DataFlowNode.get_for_assignment expr_var_id arg0_pos).id →
      g'.forward_edges parent.id
          (DataFlowNode.get_for_assignment expr_var_id arg0_pos).id =
        some ⟨.RemoveDictKey ((dim_var_id_quoted.drop 1).dropRight 1), [], []⟩) := by
  unfold shapes_remove_key at hrun
  rw [hget] at hrun
  simp only at hrun
  cases hadd : DataFlowGraph.add_node
      (expr_type.parent_nodes.foldl
        (fun g parent_node =>
          g.add_path parent_node (DataFlowNode.get_for_assignment expr_var_id arg0_pos)
            (.RemoveDictKey ((dim_var_id_quoted.drop 1).dropRight 1)) [] [])
        tast_graph)
      (DataFlowNode.get_for_assignment expr_var_id arg0_pos) with
  | none => rw [hadd] at hrun; cases hrun
  | some g2 =>
    rw [hadd] at hrun
    rw [Option.some.injEq, Prod.mk.injEq] at hrun
    obtain ⟨hg, hv⟩ := hrun
    subst hg
    subst hv
    constructor
    · refine ⟨_, varsGet_insert_self _ _ _, ?_, ?_⟩
      · obtain ⟨ts, pns, pu, ifi⟩ := expr_type
        rfl
      · intro a ha
        obtain ⟨ts, pns, pu, ifi⟩ := expr_type
        simp only [TUnion.withParentNodes, TUnion.withTypes, TUnion.types] at ha
        obtain ⟨b, _, rfl⟩ := List.mem_map.mp ha
        exact removeKeyFromAtomic_clears _ b
    · intro parent hmem hne
      rw [add_node_preserves_forward hadd]
      exact foldl_add_path_edge _ _ _ _ hne tast_graph (Or.inl hmem)

/-- C7 (witness inputs): `$a = dict['k' => 1, 'j' => 2]` with one pre-call
parent node, then `Shapes::removeKey($a, 'k')`. -/
def c7oldParent : DataFlowNode := DataFlowNode.get_for_lvar "$a" ⟨0, 10, 12⟩

def c7dictType : TUnion :=
  .mk [.TDict (some [(.Str "k", false, wrap_atomic .TInt),
    (.Str "j", false, wrap_atomic .TInt)]) none true] [c7oldParent] false false

def c7vars : List (String × TUnion) := [("$a", c7dictType)]

def c7g0 : DataFlowGraph := DataFlowGraph.new .FunctionBody

def c7run : Option (DataFlowGraph × List (String × TUnion)) :=
  shapes_remove_key c7g0 c7vars "$a" "'k'" ⟨0, 20, 22⟩

def c7g2 : DataFlowGraph := (c7run.getD (c7g0, c7vars)).1

def c7vars2 : List (String × TUnion) := (c7run.getD (c7g0, c7vars)).2

/-- C7 (witness): the theorem applied to the concrete `removeKey` call. -/
theorem c7_shapes_remove_key_effect_witness :
    (∃ new_type, varsGet c7vars2 "$a" = some new_type ∧
      new_type.parent_nodes = [DataFlowNode.get_for_assignment "$a" ⟨0, 20, 22⟩] ∧
      ∀ a ∈ new_type.types,
        dictHasKnownKey a (("'k'".drop 1).dropRight 1) = false) ∧
    (∀ parent ∈ c7dictType.parent_nodes,
      parent.id ≠ (DataFlowNode.get_for_assignment "$a" ⟨0, 20, 22⟩).id →
      c7g2.forward_edges parent.id
          (DataFlowNode.get_for_assignment "$a" ⟨0, 20, 22⟩).id =
        some ⟨.RemoveDictKey (("'k'".drop 1).dropRight 1), [], []⟩) :=
  c7_shapes_remove_key_effect c7g0 c7vars "$a" "'k'" ⟨0, 20, 22⟩ c7dictType
    c7g2 c7vars2 rfl rfl

/-- do_analyzer.rs:138-159: merging the post-loop variables of a do/while back
into the caller context.  `combine` stands for `combine_union_types`. -/
def do_loop_commit (combine : TUnion → TUnion → TUnion) (has_break : Bool)
    (possibly_defined_loop_parent_vars : String → Option TUnion)
    (caller_vars inner_vars : List (String × TUnion)) : List (String × TUnion) :=
  inner_vars.foldl
    (fun acc kv =>
      if has_break then
        match possibly_defined_loop_parent_vars kv.1 with
        | some possibly_defined_var => varsInsert acc kv.1 (combine kv.2 possibly_defined_var)
        | none => acc
      else varsInsert acc kv.1 kv.2)
    caller_vars

theorem do_loop_commit_get_of_notin (combine : TUnion → TUnion → TUnion)
    (has_break : Bool) (pd : String → Option TUnion)
    (inner : List (String × TUnion)) (k : String)
    (hk : k ∉ inner.map Prod.fst) :
    ∀ caller, varsGet (do_loop_commit combine has_break pd caller inner) k =
      varsGet caller k := by
  induction inner with
  | nil => intro caller; rfl
  | cons q rest ih =>
    intro caller
    simp only [List.map_cons, List.mem_cons] at hk
    push_neg at hk
    show varsGet (do_loop_commit combine has_break pd _ rest) k = _
    rw [ih hk.2]
    dsimp only
    by_cases hb : has_break
    · rw [if_pos hb]
      cases pd q.1 with
      | none => rfl
      | some p => exact varsGet_insert_ne _ _ _ _ hk.1
    · rw [if_neg hb]
      exact varsGet_insert_ne _ _ _ _ hk.1

/-- C9: merging post-loop variables into the caller after a do/while: with a
recorded break, a post-loop variable possibly defined before the loop is
committed as the union of its post-loop type with the possibly-defined
pre-loop type, and one not possibly defined before the loop is not committed
(the caller keeps its old binding); without a break every post-loop variable
is committed unchanged.  Untouched caller variables are preserved either
way. -/
theorem do_loop_commit_get_of_mem (combine : TUnion → TUnion → TUnion)
    (has_break : Bool) (pd : String → Option TUnion) (k : String) (v : TUnion) :
    ∀ (inner caller : List (String × TUnion)),
      (inner.map Prod.fst).Nodup → (k, v) ∈ inner →
      varsGet (do_loop_commit combine has_break pd caller inner) k =
        if has_break then
          match pd k with
          | some p => some (combine v p)
          | none => varsGet caller k
        else some v := by
  intro inner
  induction inner with
  | nil => intro caller _ hmem; cases hmem
  | cons q rest ih =>
    intro caller hnodup hmem
    have hnodup' := hnodup
    simp only [List.map_cons, List.nodup_cons] at hnodup'
    rcases List.mem_cons.mp hmem with heq | hmem'
    · subst heq
      show varsGet (do_loop_commit combine has_break pd _ rest) k = _
      rw [do_loop_commit_get_of_notin _ _ _ _ _ hnodup'.1]
      dsimp only
      by_cases hb : has_break
      · rw [if_pos hb, if_pos hb]
        cases pd k with
        | none => rfl
        | some p => exact varsGet_insert_self _ _ _
      · rw [if_neg hb, if_neg hb]
        exact varsGet_insert_self _ _ _
    · have hkq : k ≠ q.1 := by
        intro hcontra
        exact hnodup'.1 (hcontra ▸ List.mem_map.mpr ⟨(k, v), hmem', rfl⟩)
      show varsGet (do_loop_commit combine has_break pd _ rest) k = _
      have step_get : ∀ acc : List (String × TUnion),
          varsGet (if has_break then
            match pd q.1 with
            | some p => varsInsert acc q.1 (combine q.2 p)
            | none => acc
          else varsInsert acc q.1 q.2) k = varsGet acc k := by
        intro acc
        by_cases hb : has_break
        · rw [if_pos hb]
          cases pd q.1 with
          | none => rfl
          | some p => exact varsGet_insert_ne _ _ _ _ hkq
        · rw [if_neg hb]
          exact varsGet_insert_ne _ _ _ _ hkq
      rw [ih _ hnodup'.2 hmem']
      by_cases hb : has_break
      · rw [if_pos hb, if_pos hb]
        cases pd k with
        | none => exact step_get caller
        | some p => rfl
      · rw [if_neg hb, if_neg hb]

/-- C9: merging post-loop variables into the caller after a do/while: with a
recorded break, a post-loop variable possibly defined before the loop is
committed as the union of its post-loop type with the possibly-defined
pre-loop type, and one not possibly defined before the loop is not committed
(the caller keeps its old binding); without a break every post-loop variable
is committed unchanged.  Untouched caller variables are preserved either
way. -/
theorem c9_do_loop_commit_characterization (combine : TUnion → TUnion → TUnion)
    (has_break : Bool) (pd : String → Option TUnion)
    (caller inner : List (String × TUnion))
    (hnodup : (inner.map Prod.fst).Nodup) :
    (∀ k v, (k, v) ∈ inner →
      varsGet (do_loop_commit combine has_break pd caller inner) k =
        if has_break then
          match pd k with
          | some p => some (combine v p)
          | none => varsGet caller k
        else some v) ∧
    (∀ k, k ∉ inner.map Prod.fst →
      varsGet (do_loop_commit combine has_break pd caller inner) k =
        varsGet caller k) :=
  ⟨fun k v hmem => do_loop_commit_get_of_mem combine has_break pd k v inner
      caller hnodup hmem,
    fun k hk => do_loop_commit_get_of_notin combine has_break pd inner k hk caller⟩

/-- function_call_return_type_fetcher.rs `FunctionLikeInfo` fields consulted
by `add_dataflow`. -/
structure FunctionLikeInfo where
  return_type_location : Option HPos
  name_location : Option HPos
  specialize_call : Bool
  taint_source_types : List SourceType

/-- function_call_return_type_fetcher.rs:1325-1344
`get_special_added_removed_taints` (panics for non-function ids, hence
`Option`). -/
def get_special_added_removed_taints (functionlike_id : FunctionLikeIdentifier) :
    Option (List (Nat × (List SinkType × List SinkType))) :=
  match functionlike_id with
  | .Function function_name =>
    if function_name = "html_entity_decode" ∨
        function_name = "htmlspecialchars_decode" then
      some [(0, ([.HtmlTag], []))]
    else if function_name = "htmlentities" ∨ function_name = "htmlspecialchars" ∨
        function_name = "strip_tags" ∨ function_name = "urlencode" then
      some [(0, ([], [.HtmlTag, .HtmlAttributeUri]))]
    else some []
  | _ => none

/-- function_call_return_type_fetcher.rs:888-1323 `get_special_argument_nodes`,
restricted to the table rows the verified properties touch (the html
encode/decode family plus representative rows of the other row shapes); every
other builtin falls to the empty-row fallback exactly as in the source's
catch-all arm.  Panics for non-function ids, hence `Option`. -/
def get_special_argument_nodes (functionlike_id : FunctionLikeIdentifier) :
    Option (List (Nat × PathKind) × Option PathKind) :=
  match functionlike_id with
  | .Function function_name =>
    if function_name ∈ ["var_export", "strtolower", "strtoupper", "trim",
        "strip_tags", "htmlentities", "html_entity_decode", "htmlspecialchars",
        "htmlspecialchars_decode", "urlencode", "urldecode", "base64_encode",
        "strval", "json_decode"] then
      some ([(0, .Default)], none)
    else if function_name ∈ ["substr", "number_format"] then
      some ([(0, .Default)], some .Aggregate)
    else if function_name ∈ ["count", "sha1", "md5", "dirname"] then
      some ([(0, .Aggregate)], none)
    else if function_name ∈ ["strpos", "substr_count", "strcmp", "range"] then
      some ([], some .Aggregate)
    else if function_name ∈ ["json_encode", "serialize"] then
      some ([(0, .Serialize)], none)
    else some ([], none)
  | _ => none

/-- function_call_return_type_fetcher.rs:844-882 `add_special_param_dataflow`. -/
def add_special_param_dataflow (functionlike_id : FunctionLikeIdentifier)
    (specialize_call : Bool) (param_offset : Nat) (arg_pos : HPos) (pos : HPos)
    (added_removed_taints : List (Nat × (List SinkType × List SinkType)))
    (data_flow_graph : DataFlowGraph) (function_call_node : DataFlowNode)
    (path_kind : PathKind) : Option DataFlowGraph :=
  let argument_node := DataFlowNode.get_for_method_argument functionlike_id
    param_offset (some arg_pos) (if specialize_call then some pos else none)
  let taints :=
    match added_removed_taints.find? (fun e => e.1 = param_offset) with
    | some e => e.2
    | none => ([], [])
  (data_flow_graph.add_path argument_node function_call_node path_kind
    taints.1 taints.2).add_node argument_node

/-- The call-return vertex `add_dataflow` builds in whole-program mode
(function_call_return_type_fetcher.rs:734-747). -/
def whole_program_call_node (functionlike_id : FunctionLikeIdentifier)
    (functionlike_storage : FunctionLikeInfo) (pos : HPos) : DataFlowNode :=
  DataFlowNode.get_for_method_return functionlike_id
    (match functionlike_storage.return_type_location with
     | some return_pos => some return_pos
     | none => functionlike_storage.name_location)
    (if functionlike_storage.specialize_call then some pos else none)

/-- The explicit-offset loop of `add_dataflow`
(function_call_return_type_fetcher.rs:766-787); threads the graph and the
running `last_arg` (`none` models `usize::MAX`). -/
def foldSpecialParams (functionlike_id : FunctionLikeIdentifier)
    (added_removed_taints : List (Nat × (List SinkType × List SinkType)))
    (arg_positions : List HPos) (pos : HPos) (function_call_node : DataFlowNode) :
    List (Nat × PathKind) → DataFlowGraph → Option Nat →
    Option (DataFlowGraph × Option Nat)
  | [], g, last_arg => some (g, last_arg)
  | (param_offset, path_kind) :: rest, g, _ =>
    match arg_positions.get? param_offset with
    | some arg_pos =>
      match add_special_param_dataflow functionlike_id true param_offset arg_pos
          pos added_removed_taints g function_call_node path_kind with
      | none => none
      | some g2 =>
        foldSpecialParams functionlike_id added_removed_taints arg_positions pos
          function_call_node rest g2 (some param_offset)
    | none =>
      foldSpecialParams functionlike_id added_removed_taints arg_positions pos
        function_call_node rest g (some param_offset)

/-- The variadic loop of `add_dataflow`
(function_call_return_type_fetcher.rs:789-807). -/
def foldVariadicParams (functionlike_id : FunctionLikeIdentifier)
    (added_removed_taints : List (Nat × (List SinkType × List SinkType)))
    (pos : HPos) (function_call_node : DataFlowNode) (path_kind : PathKind)
    (last_arg : Option Nat) :
    List (Nat × HPos) → DataFlowGraph → Option DataFlowGraph
  | [], g => some g
  | (param_offset, arg_pos) :: rest, g =>
    if (match last_arg with | none => true | some l => decide (param_offset > l)) then
      match add_special_param_dataflow functionlike_id true param_offset arg_pos
          pos added_removed_taints g function_call_node path_kind with
      | none => none
      | some g2 =>
        foldVariadicParams functionlike_id added_removed_taints pos
          function_call_node path_kind last_arg rest g2
    else
      foldVariadicParams functionlike_id added_removed_taints pos
        function_call_node path_kind last_arg rest g

/-- node.rs `DataFlowNode::get_pos` (panicking arms give `none`). -/
def DataFlowNode.get_pos_opt (n : DataFlowNode) : Option HPos :=
  match n.kind with
  | .Vertex p _ => p
  | .TaintSource p _ => p
  | .TaintSink p _ => p
  | _ => none

/-- function_call_return_type_fetcher.rs:701-842 `add_dataflow`: skip when a
whole-program graph disallows taints; insert the call-return vertex; walk the
special-argument table adding per-argument edges with the table's
added/removed taints; handle the variadic tail and the unpacked argument;
insert a `TaintSource` twin when the function-like declares source types; and
append the call node to the return type's parent nodes. -/
def add_dataflow (functionlike_id : FunctionLikeIdentifier)
    (functionlike_storage : FunctionLikeInfo) (arg_positions : List HPos)
    (unpacked_arg_pos : Option HPos) (pos : HPos) (stmt_type : TUnion)
    (data_flow_graph : DataFlowGraph) (allow_taints : Bool) :
    Option (TUnion × DataFlowGraph) :=
  let is_whole_program :=
    match data_flow_graph.kind with
    | .WholeProgram _ => true
    | .FunctionBody => false
  if is_whole_program && !allow_taints then some (stmt_type, data_flow_graph)
  else
    let function_call_node :=
      if is_whole_program then
        whole_program_call_node functionlike_id functionlike_storage pos
      else
        DataFlowNode.get_for_method_return functionlike_id (some pos) (some pos)
    match data_flow_graph.add_node function_call_node with
    | none => none
    | some g1 =>
      match get_special_argument_nodes functionlike_id with
      | none => none
      | some (param_offsets, variadic_path) =>
        match (if is_whole_program then
            get_special_added_removed_taints functionlike_id
          else some []) with
        | none => none
        | some added_removed_taints =>
          match foldSpecialParams functionlike_id added_removed_taints
              arg_positions pos function_call_node param_offsets g1 none with
          | none => none
          | some (g2, last_arg) =>
            let after_variadic :=
              match variadic_path with
              | none => some g2
              | some path_kind =>
                match foldVariadicParams functionlike_id added_removed_taints
                    pos function_call_node path_kind last_arg
                    (arg_positions.enum) g2 with
                | none => none
                | some g3 =>
                  match unpacked_arg_pos with
                  | none => some g3
                  | some expanded_pos =>
                    add_special_param_dataflow functionlike_id true
                      arg_positions.length expanded_pos pos added_removed_taints
                      g3 function_call_node path_kind
            match after_variadic with
            | none => none
            | some g4 =>
              let g5 :=
                if is_whole_program &&
                    !functionlike_storage.taint_source_types.isEmpty then
                  (g4.add_node
                    { id := function_call_node.id
                      kind := .TaintSource function_call_node.get_pos_opt
                        functionlike_storage.taint_source_types }).getD g4
                else g4
              some (stmt_type.withParentNodes
                (stmt_type.parent_nodes ++ [function_call_node]), g5)

theorem add_node_exists_some (g : DataFlowGraph) (n : DataFlowNode)
    (h : ∀ pos key, n.kind = .Vertex pos (some key) →
      (n.id.unlocalize).isSome = true) :
    ∃ g', g.add_node n = some g' := by
  rw [← Option.isSome_iff_exists]
  obtain ⟨nid, nkind⟩ := n
  cases nkind with
  | Vertex pos key =>
    cases key with
    | none =>
      cases hk : g.kind with
      | FunctionBody => simp [DataFlowGraph.add_node, hk]
      | WholeProgram wpk => simp [DataFlowGraph.add_node, hk]
    | some k =>
      cases hk : g.kind with
      | FunctionBody => simp [DataFlowGraph.add_node, hk]
      | WholeProgram wpk =>
        have hu := h pos k rfl
        obtain ⟨unspec, hunspec⟩ := Option.isSome_iff_exists.mp hu
        simp only [DataFlowGraph.add_node, hk, hunspec, Option.isSome_some]
  | VariableUseSource a b c d e => simp [DataFlowGraph.add_node]
  | VariableUseSink a => simp [DataFlowGraph.add_node]
  | ForLoopInit a b c => simp [DataFlowGraph.add_node]
  | DataSource a b => simp [DataFlowGraph.add_node]
  | TaintSource a b => simp [DataFlowGraph.add_node]
  | TaintSink a b => simp [DataFlowGraph.add_node]

theorem add_node_getD_forward (g : DataFlowGraph) (n : DataFlowNode) :
    ((g.add_node n).getD g).forward_edges = g.forward_edges := by
  cases h : g.add_node n with
  | none => simp
  | some g' => simp [add_node_preserves_forward h]

theorem add_special_param_dataflow_spec (functionlike_id : FunctionLikeIdentifier)
    (param_offset : Nat) (arg_pos pos : HPos)
    (tbl : List (Nat × (List SinkType × List SinkType)))
    (g : DataFlowGraph) (callNode : DataFlowNode) (path_kind : PathKind)
    (added removed : List SinkType)
    (htbl : (match tbl.find? (fun e => e.1 = param_offset) with
             | some e => e.2
             | none => (([] : List SinkType), ([] : List SinkType))) =
      (added, removed))
    (hne : (DataFlowNode.get_for_method_argument functionlike_id param_offset
      (some arg_pos) (some pos)).id ≠ callNode.id) :
    ∃ g', add_special_param_dataflow functionlike_id true param_offset arg_pos
        pos tbl g callNode path_kind = some g' ∧
      g'.forward_edges (DataFlowNode.get_for_method_argument functionlike_id
          param_offset (some arg_pos) (some pos)).id callNode.id =
        some ⟨path_kind, added, removed⟩ := by
  unfold add_special_param_dataflow
  simp only [if_pos rfl]
  set argument_node := DataFlowNode.get_for_method_argument functionlike_id
    param_offset (some arg_pos) (some pos) with hargnode
  have hkind : argument_node.kind = .Vertex (some arg_pos)
      (some (pos.file_path, pos.start_offset)) := by
    rw [hargnode]
    rfl
  have hid : argument_node.id = .LocalizedFunctionLikeArg functionlike_id
      param_offset pos.file_path pos.start_offset := by
    rw [hargnode]
    rfl
  obtain ⟨g', hadd⟩ := add_node_exists_some
    (g.add_path argument_node callNode path_kind added removed) argument_node
    (by intro p k hk
        rw [hid]
        rfl)
  rw [htbl]
  refine ⟨g', hadd, ?_⟩
  rw [add_node_preserves_forward hadd]
  rw [add_path_forward_of_ne _ _ _ _ _ _ hne]
  rw [if_pos ⟨rfl, rfl⟩]

theorem arg_node_id_ne_call_node_id (functionlike_id : FunctionLikeIdentifier)
    (storage : FunctionLikeInfo) (pos arg0_pos : HPos) :
    (DataFlowNode.get_for_method_argument functionlike_id 0 (some arg0_pos)
      (some pos)).id ≠ (whole_program_call_node functionlike_id storage pos).id := by
  unfold whole_program_call_node DataFlowNode.get_for_method_return
    DataFlowNode.get_for_method_argument
  cases storage.specialize_call with
  | false =>
    simp only [if_neg]
    intro h
    cases h
  | true =>
    simp only [if_pos]
    intro h
    cases h

/-- C8: in a whole-program analysis with taints allowed, for any builtin whose
special-argument row is `[(0, Default)]` with no variadic tail and whose
added/removed-taints row is `[(0, (added, removed))]`, the data-flow edge from
the argument-0 node to the call-return node carries exactly those taint sets;
and the html table rows are: `htmlentities` / `htmlspecialchars` /
`strip_tags` / `urlencode` remove `{HtmlTag, HtmlAttributeUri}` and add
nothing, while `html_entity_decode` / `htmlspecialchars_decode` add
`{HtmlTag}` and remove nothing. -/
theorem c8_html_taint_edges :
    (∀ (functionlike_id : FunctionLikeIdentifier) (storage : FunctionLikeInfo)
      (arg_positions : List HPos) (unpacked : Option HPos) (pos arg0_pos : HPos)
      (stmt : TUnion) (g : DataFlowGraph) (wpk : WholeProgramKind)
      (added removed : List SinkType) (stmt' : TUnion) (g' : DataFlowGraph),
      g.kind = .WholeProgram wpk →
      get_special_argument_nodes functionlike_id = some ([(0, .Default)], none) →
      get_special_added_removed_taints functionlike_id =
        some [(0, (added, removed))] →
      arg_positions.get? 0 = some arg0_pos →
      add_dataflow functionlike_id storage arg_positions unpacked pos stmt g
        true = some (stmt', g') →
      g'.forward_edges
        (DataFlowNode.get_for_method_argument functionlike_id 0 (some arg0_pos)
          (some pos)).id
        (whole_program_call_node functionlike_id storage pos).id =
        some ⟨.Default, added, removed⟩) ∧
    (get_special_added_removed_taints (.Function "htmlentities") =
        some [(0, ([], [.HtmlTag, .HtmlAttributeUri]))] ∧
      get_special_added_removed_taints (.Function "htmlspecialchars") =
        some [(0, ([], [.HtmlTag, .HtmlAttributeUri]))] ∧
      get_special_added_removed_taints (.Function "strip_tags") =
        some [(0, ([], [.HtmlTag, .HtmlAttributeUri]))] ∧
      get_special_added_removed_taints (.Function "urlencode") =
        some [(0, ([], [.HtmlTag, .HtmlAttributeUri]))]) ∧
    (get_special_added_removed_taints (.Function "html_entity_decode") =
        some [(0, ([.HtmlTag], []))] ∧
      get_special_added_removed_taints (.Function "htmlspecialchars_decode") =
        some [(0, ([.HtmlTag], []))]) := by
  refine ⟨?_, ⟨rfl, rfl, rfl, rfl⟩, ⟨rfl, rfl⟩⟩
  intro functionlike_id storage arg_positions unpacked pos arg0_pos stmt g wpk
    added removed stmt' g' hkind hrow htaintrow hargs hrun
  unfold add_dataflow at hrun
  rw [hkind] at hrun
  simp only [Bool.not_true, Bool.and_false, Bool.false_eq_true, if_false,
    if_true] at hrun
  obtain ⟨g1, hg1⟩ := add_node_exists_some g
    (whole_program_call_node functionlike_id storage pos)
    (by intro p k hk
        unfold whole_program_call_node DataFlowNode.get_for_method_return at hk
        cases hsp : storage.specialize_call with
        | false =>
          rw [if_neg (by simp [hsp])] at hk
          cases hk
        | true =>
          rw [if_pos (by simp [hsp])] at hk
          simp only [whole_program_call_node, DataFlowNode.get_for_method_return,
            if_pos (by simp [hsp] : storage.specialize_call = true)]
          rfl)
  rw [hg1, hrow, htaintrow] at hrun
  obtain ⟨g2, hspd, hedge⟩ := add_special_param_dataflow_spec functionlike_id 0
    arg0_pos pos [(0, (added, removed))] g1
    (whole_program_call_node functionlike_id storage pos) .Default added removed
    (by simp [List.find?]) (arg_node_id_ne_call_node_id _ _ _ _)
  simp only [foldSpecialParams, hargs, hspd] at hrun
  simp only [Option.some.injEq, Prod.mk.injEq] at hrun
  obtain ⟨hstmt, hg'⟩ := hrun
  subst hg'
  cases hempty : storage.taint_source_types.isEmpty with
  | true =>
    simp only [hempty, Bool.not_true, Bool.and_false, Bool.false_eq_true,
      if_false]
    exact hedge
  | false =>
    simp only [hempty, Bool.not_false, Bool.and_true, if_true]
    rw [add_node_getD_forward]
    exact hedge

/-- C8 (witness inputs): `htmlspecialchars($untrusted)` analyzed on an empty
whole-program taint graph. -/
def c8storage : FunctionLikeInfo := ⟨none, none, true, []⟩

def c8g0 : DataFlowGraph := DataFlowGraph.new (.WholeProgram .Taint)

def c8pos : HPos := ⟨0, 40, 50⟩

def c8run : Option (TUnion × DataFlowGraph) :=
  add_dataflow (.Function "htmlspecialchars") c8storage [⟨0, 30, 35⟩] none c8pos
    get_string c8g0 true

def c8stmtOut : TUnion := (c8run.getD (get_string, c8g0)).1

def c8graphOut : DataFlowGraph := (c8run.getD (get_string, c8g0)).2

/-- C8 (witness): the concrete `htmlspecialchars` call's arg-0 edge carries
removed `{HtmlTag, HtmlAttributeUri}` and no added taints. -/
theorem c8_html_taint_edges_witness :
    c8graphOut.forward_edges
      (DataFlowNode.get_for_method_argument (.Function "htmlspecialchars") 0
        (some ⟨0, 30, 35⟩) (some c8pos)).id
      (whole_program_call_node (.Function "htmlspecialchars") c8storage c8pos).id =
      some ⟨.Default, [], [.HtmlTag, .HtmlAttributeUri]⟩ :=
  c8_html_taint_edges.1 (.Function "htmlspecialchars") c8storage [⟨0, 30, 35⟩]
    none c8pos ⟨0, 30, 35⟩ get_string c8g0 .Taint [] [.HtmlTag, .HtmlAttributeUri]
    c8stmtOut c8graphOut rfl rfl rfl rfl rfl

/-- C9 (witness): a concrete merge with a break recorded, one variable
possibly defined before the loop and one not, plus the no-break case. -/
theorem c9_do_loop_commit_witness :
    varsGet (do_loop_commit add_union_type true
        (fun k => if k = "$x" then some get_null else none) []
        [("$x", wrap_atomic .TInt), ("$y", wrap_atomic .TString)]) "$x" =
      some (add_union_type (wrap_atomic .TInt) get_null) ∧
    varsGet (do_loop_commit add_union_type true
        (fun k => if k = "$x" then some get_null else none) []
        [("$x", wrap_atomic .TInt), ("$y", wrap_atomic .TString)]) "$y" = none ∧
    varsGet (do_loop_commit add_union_type false
        (fun k => if k = "$x" then some get_null else none) []
        [("$x", wrap_atomic .TInt), ("$y", wrap_atomic .TString)]) "$y" =
      some (wrap_atomic .TString) := by
  refine ⟨?_, ?_, ?_⟩
  · have h := (c9_do_loop_commit_characterization add_union_type true
      (fun k => if k = "$x" then some get_null else none) []
      [("$x", wrap_atomic .TInt), ("$y", wrap_atomic .TString)] (by decide)).1
      "$x" (wrap_atomic .TInt) (List.Mem.head _)
    simpa using h
  · have h := (c9_do_loop_commit_characterization add_union_type true
      (fun k => if k = "$x" then some get_null else none) []
      [("$x", wrap_atomic .TInt), ("$y", wrap_atomic .TString)] (by decide)).1
      "$y" (wrap_atomic .TString) (List.Mem.tail _ (List.Mem.head _))
    simpa using h
  · have h := (c9_do_loop_commit_characterization add_union_type false
      (fun k => if k = "$x" then some get_null else none) []
      [("$x", wrap_atomic .TInt), ("$y", wrap_atomic .TString)] (by decide)).1
      "$y" (wrap_atomic .TString) (List.Mem.tail _ (List.Mem.head _))
    simpa using h

end Hakana

namespace Hakana

/-- Does `hay` contain `needle` as a contiguous sublist. -/
def listContainsSub : List Char → List Char → Bool
  | [], needle => needle.isEmpty
  | hay@(_ :: t), needle => needle.isPrefixOf hay || listContainsSub t needle

/-- Substring containment (Rust `str::contains` with a string pattern). -/
def strContains (s sub : String) : Bool :=
  listContainsSub s.toList sub.toList

/-- Kernel-reducible `String::starts_with`. -/
def strStartsWith (s pre : String) : Bool :=
  pre.toList.isPrefixOf s.toList

/-- Kernel-reducible `String::ends_with`. -/
def strEndsWith (s suf : String) : Bool :=
  suf.toList.isSuffixOf s.toList

def listReplaceGo (old new : List Char) : Nat → List Char → List Char
  | 0, hay => hay
  | fuel + 1, hay =>
    match hay with
    | [] => []
    | h :: t =>
      if old.isPrefixOf hay ∧ old ≠ [] then
        new ++ listReplaceGo old new fuel (hay.drop old.length)
      else h :: listReplaceGo old new fuel t

/-- Kernel-reducible `str::replace`. -/
def strReplace (s old new : String) : String :=
  String.mk (listReplaceGo old.toList new.toList s.toList.length s.toList)

def listSplitGo (sep : List Char) : Nat → List Char → List Char →
    List (List Char)
  | 0, hay, acc => [acc ++ hay]
  | fuel + 1, hay, acc =>
    match hay with
    | [] => [acc]
    | h :: t =>
      if sep.isPrefixOf hay ∧ sep ≠ [] then
        acc :: listSplitGo sep fuel (hay.drop sep.length) []
      else listSplitGo sep fuel t (acc ++ [h])

/-- Kernel-reducible `str::split`. -/
def strSplitOn (s sep : String) : List String :=
  (listSplitGo sep.toList s.toList.length s.toList []).map String.mk

/-- Kernel-reducible `str::parse::<usize>` (digits only). -/
def strToNat? (s : String) : Option Nat :=
  let l := s.toList
  if !l.isEmpty && l.all Char.isDigit then
    some (l.foldl (fun acc c => acc * 10 + (c.toNat - 48)) 0)
  else none

/-- Lexicographic comparison on scalar values (the `BTreeMap` string order). -/
def charListLt : List Char → List Char → Bool
  | [], [] => false
  | [], _ :: _ => true
  | _ :: _, [] => false
  | a :: as1, b :: bs =>
    if a.toNat < b.toNat then true
    else if a.toNat = b.toNat then charListLt as1 bs
    else false

def strLt (a b : String) : Bool :=
  charListLt a.toList b.toList

/-- The reconciler's `INTEGER_REGEX` (`^[0-9]+$`). -/
def isIntegerString (s : String) : Bool :=
  let l := s.toList
  !l.isEmpty && l.all Char.isDigit

/-- reconciler.rs:27-32 `ReconciliationStatus`. -/
inductive ReconciliationStatus where
  | Ok
  | Redundant
  | Empty
  deriving DecidableEq, Repr

/-- Structural equality on assertions (the Rust `PartialEq` derive). -/
def Assertion.beq : Assertion → Assertion → Bool
  | .IsType t1, .IsType t2 => t1.beq t2
  | .IsNotType t1, .IsNotType t2 => t1.beq t2
  | .IsEqual t1, .IsEqual t2 => t1.beq t2
  | .IsNotEqual t1, .IsNotEqual t2 => t1.beq t2
  | .Truthy, .Truthy => true
  | .Falsy, .Falsy => true
  | .IsIsset, .IsIsset => true
  | .IsNotIsset, .IsNotIsset => true
  | .IsEqualIsset, .IsEqualIsset => true
  | .HasArrayKey k1, .HasArrayKey k2 => k1 == k2
  | .ArrayKeyExists, .ArrayKeyExists => true
  | .ArrayKeyDoesNotExist, .ArrayKeyDoesNotExist => true
  | .NonEmptyCountable b1, .NonEmptyCountable b2 => b1 == b2
  | .HasStringArrayAccess, .HasStringArrayAccess => true
  | .HasIntOrStringArrayAccess, .HasIntOrStringArrayAccess => true
  | .IgnoreTaints, .IgnoreTaints => true
  | .DontIgnoreTaints, .DontIgnoreTaints => true
  | .RemoveTaints k1 t1, .RemoveTaints k2 t2 => k1 == k2 && t1 == t2
  | _, _ => false

def assertionListBeq : List Assertion → List Assertion → Bool
  | [], [] => true
  | a :: r1, b :: r2 => a.beq b && assertionListBeq r1 r2
  | _, _ => false

def assertionListListBeq : List (List Assertion) → List (List Assertion) → Bool
  | [], [] => true
  | a :: r1, b :: r2 => assertionListBeq a b && assertionListListBeq r1 r2
  | _, _ => false

/-- `BTreeMap<String, _>` lookup (the map is a key-sorted association list). -/
def btreeGet {α : Type} (m : List (String × α)) (k : String) : Option α :=
  (m.find? fun p => p.1 = k).map (·.2)

/-- `BTreeMap<String, _>` insert, keeping keys sorted so that list order is
iteration order. -/
def btreeInsert {α : Type} : List (String × α) → String → α → List (String × α)
  | [], k, v => [(k, v)]
  | (k', v') :: rest, k, v =>
    if k = k' then (k, v) :: rest
    else if strLt k k' then (k, v) :: (k', v') :: rest
    else (k', v') :: btreeInsert rest k v

/-- Modelled from the spec: `var_has_root` (scope_context.rs is outside the
snapshot).  Per §4.3 two paths are related when one is a prefix extension of
the other; a path is rooted at a base when the base is a proper prefix and the
extension starts a `[`/`->` suffix. -/
def var_has_root (var_id root_var_id : String) : Bool :=
  root_var_id.toList.isPrefixOf var_id.toList &&
    (match var_id.toList.drop root_var_id.toList.length with
     | '[' :: _ => true
     | '-' :: _ => true
     | _ => false)

/-- Scanner state of `break_up_path_into_parts` (reconciler.rs:526-630). -/
structure PathScanState where
  string_char : Option Char
  escape_char : Bool
  brackets : Int
  parts : List (Nat × String)
  parts_offset : Nat

def partsAppendAt (parts : List (Nat × String)) (k : Nat) (c : Char) :
    List (Nat × String) :=
  if parts.any (fun p => p.1 = k) then
    parts.map fun p => if p.1 = k then (k, p.2.push c) else p
  else parts ++ [(k, String.singleton c)]

def partsSetAt (parts : List (Nat × String)) (k : Nat) (s : String) :
    List (Nat × String) :=
  if parts.any (fun p => p.1 = k) then
    parts.map fun p => if p.1 = k then (k, s) else p
  else parts ++ [(k, s)]

def lookaheadColonDollar : List Char → Bool
  | ':' :: '$' :: _ => true
  | _ => false

def lookaheadGt : List Char → Bool
  | '>' :: _ => true
  | _ => false

/-- The character loop of `break_up_path_into_parts`; consumes one to three
characters per step, so recursion is structural on the remaining list. -/
def breakUpGo : List Char → PathScanState → List (Nat × String)
  | [], st => st.parts
  | ichar :: rest, st =>
    match st.string_char with
    | some string_char_inner =>
      let cleared : Option Char :=
        if ichar = string_char_inner ∧ st.escape_char = false then none
        else some string_char_inner
      let esc : Bool :=
        if ichar = '\\' then !st.escape_char else st.escape_char
      breakUpGo rest
        { st with
          string_char := cleared
          escape_char := esc
          parts := partsAppendAt st.parts st.parts_offset ichar }
    | none =>
      if ichar = '[' ∨ ichar = ']' then
        breakUpGo rest
          { st with
            parts := partsSetAt st.parts (st.parts_offset + 1)
              (String.singleton ichar)
            parts_offset := st.parts_offset + 2
            brackets := st.brackets + (if ichar = '[' then 1 else -1) }
      else if ichar = '\'' ∨ ichar = '"' then
        breakUpGo rest
          { st with
            parts := partsAppendAt st.parts st.parts_offset ichar
            string_char := some ichar }
      else if ichar = ':' ∧ st.brackets = 0 ∧ lookaheadColonDollar rest = true then
        match rest with
        | _ :: _ :: rest2 =>
          breakUpGo rest2
            { st with
              parts := partsSetAt st.parts (st.parts_offset + 1) "::$"
              parts_offset := st.parts_offset + 2 }
        | _ => st.parts
      else if ichar = '-' ∧ st.brackets = 0 ∧ lookaheadGt rest = true then
        match rest with
        | _ :: rest2 =>
          breakUpGo rest2
            { st with
              parts := partsSetAt st.parts (st.parts_offset + 1) "->"
              parts_offset := st.parts_offset + 2 }
        | _ => st.parts
      else
        breakUpGo rest
          { st with parts := partsAppendAt st.parts st.parts_offset ichar }

/-- reconciler.rs:526-630 `break_up_path_into_parts`. -/
def break_up_path_into_parts (path : String) : List String :=
  (breakUpGo path.toList
    { string_char := none, escape_char := false, brackets := 0,
      parts := [(0, "")], parts_offset := 0 }).map (·.2)

end Hakana

namespace Hakana

/-- The `new_types` argument: `BTreeMap<String, Vec<Vec<Assertion>>>`. -/
abbrev NTMap := List (String × List (List Assertion))

/-- Inner while loop of `add_nested_assertions` (reconciler.rs:483-520),
walking the path dividers in source order and injecting ancillary
assertions.  A missing expected part means the Rust `pop().unwrap()` panics,
hence `Option`. -/
def nestedWalk : List String → String → NTMap → Option NTMap
  | [], _, m => some m
  | divider :: rest, base_key, m =>
    if divider = "[" then
      match rest with
      | [] => none
      | array_key :: rest1 =>
        let new_base_key := base_key ++ "[" ++ array_key ++ "]"
        let m1 := btreeInsert m base_key ((btreeGet m base_key).getD [] ++
          [[if strContains array_key "'" then Assertion.HasStringArrayAccess
            else Assertion.HasIntOrStringArrayAccess]])
        match rest1 with
        | [] => some m1
        | _ :: rest2 => nestedWalk rest2 new_base_key m1
    else if divider = "->" then
      match rest with
      | [] => none
      | property_name :: rest1 =>
        let new_base_key := base_key ++ "->" ++ property_name
        let m1 := if (btreeGet m base_key).isSome then m
          else btreeInsert m base_key [[Assertion.IsIsset]]
        nestedWalk rest1 new_base_key m1
    else some m

/-- One key of `add_nested_assertions` (reconciler.rs:455-522): paths with
`[`/`->` whose first assertion is `IsIsset`/`IsEqualIsset` get ancillary
assertions injected at the root and at every step. -/
def addNestedForKey (vars_in_scope : List (String × TUnion)) (m : NTMap)
    (nk : String) (new_type : List (List Assertion)) : Option NTMap :=
  if strContains nk "[" || strContains nk "->" then
    match new_type with
    | (a :: _) :: _ =>
      if a.beq .IsEqualIsset || a.beq .IsIsset then
        match break_up_path_into_parts nk with
        | [] => none
        | base0 :: rest0 =>
          let merged :=
            if ¬(strStartsWith base0 "$" = true) ∧ rest0.length > 2 ∧
                rest0.head? = some "::$" then
              match rest0 with
              | p1 :: p2 :: restp => (base0 ++ p1 ++ p2, restp)
              | _ => (base0, rest0)
            else (base0, rest0)
          let base_key := merged.1
          let key_parts := merged.2
          let m1 :=
            if (varsGet vars_in_scope base_key).isSome = false ∨
                (match varsGet vars_in_scope base_key with
                 | some t => t.is_nullable
                 | none => false) = true then
              match btreeGet m base_key with
              | none => btreeInsert m base_key [[Assertion.IsEqualIsset]]
              | some existing_entry =>
                btreeInsert m base_key (existing_entry ++ [[Assertion.IsEqualIsset]])
            else m
          nestedWalk key_parts base_key m1
      else some m
    | _ => none
  else some m

def addNestedFold (vars_in_scope : List (String × TUnion)) :
    List (String × List (List Assertion)) → NTMap → Option NTMap
  | [], m => some m
  | (nk, nt) :: rest, m =>
    match addNestedForKey vars_in_scope m nk nt with
    | none => none
    | some m1 => addNestedFold vars_in_scope rest m1

/-- reconciler.rs:447-524 `add_nested_assertions`: iterates a snapshot of
`new_types` while inserting into the live map. -/
def add_nested_assertions (new_types : NTMap)
    (vars_in_scope : List (String × TUnion)) : Option NTMap :=
  addNestedFold vars_in_scope new_types new_types

/-- The reflection database consulted by the reconciler, kept abstract: it is
an external read-only interface (spec §6).  `get_property_type` stands for
the property_exists / declaring-class / type-expansion pipeline of
reconciler.rs:963-1000. -/
structure CodebaseInfo where
  class_exists : String → Bool
  get_class_constant : String → String → Option TUnion
  get_property_type : String → String → Option TUnion

/-- The state `get_value_for_key` threads: the variable environment, the ids
of sub-paths it materializes under literal array keys, and the
`possibly_undefined` out-parameter. -/
structure GvkState where
  vars_in_scope : List (String × TUnion)
  added_var_ids : List String
  possibly_undefined : Bool

end Hakana

namespace Hakana

/-- Per-atomic body of the `[` branch of `get_value_for_key`
(reconciler.rs:710-865).  The result's second component is `some r` when the
source executes an early `return r` for the whole function, `none` when the
atomic loop ran to completion; the outer `Option` is a panic.  Each completed
atomic union-adds its candidate, records the materialized sub-path in
`added_var_ids` (literal keys only) and inserts the accumulated union into
scope, exactly as the source does inside the loop. -/
def gvkArrayAtomics (key new_base_key array_key : String)
    (new_assertions : NTMap) (has_isset has_inverted_isset inside_loop : Bool) :
    List TAtomic → GvkState → Option TUnion →
    Option (GvkState × Option (Option TUnion))
  | [], st, _ => some (st, none)
  | atomic0 :: restAtomics, ⟨vars0, added0, pu0⟩, acc =>
    let existing_key_type_part :=
      match atomic0 with
      | .TTypeAlias _ (some as_type) => as_type
      | a => a
    let continueWith :
        TUnion → GvkState → Option (GvkState × Option (Option TUnion)) :=
      fun new_base_type_candidate st1 =>
        match st1 with
        | ⟨vars1, added1, pu1⟩ =>
          let new_base_type :=
            match acc with
            | some nbt => add_union_type nbt new_base_type_candidate
            | none => new_base_type_candidate
          gvkArrayAtomics key new_base_key array_key new_assertions has_isset
            has_inverted_isset inside_loop restAtomics
            ⟨varsInsert vars1 new_base_key new_base_type,
              (if ¬(strStartsWith array_key "$" = true) then
                listInsert added1 new_base_key
              else added1), pu1⟩
            (some new_base_type)
    let st : GvkState := ⟨vars0, added0, pu0⟩
    match existing_key_type_part with
    | .TDict known_items params non_empty =>
      let known_item :=
        if ¬(strStartsWith array_key "$" = true) then
          match known_items with
          | some items =>
            items.find? fun it => it.1 = DictKey.Str (strReplace array_key "'" "")
          | none => none
        else none
      match known_item with
      | some it =>
        continueWith it.2.2
          (if it.2.1 then ⟨vars0, added0, true⟩ else st)
      | none =>
        match get_value_param (.TDict known_items params non_empty) with
        | none => none
        | some c0 =>
          if c0.is_mixed ∧ ¬(has_isset = true) ∧ ¬(has_inverted_isset = true) then
            some (st, some (some c0))
          else
            if (has_isset = true ∨ has_inverted_isset = true) ∧
                (btreeGet new_assertions new_base_key).isSome = true then
              let c1 := if has_inverted_isset = true ∧ new_base_key = key then
                  c0.add_type .TNull
                else c0
              continueWith c1 ⟨vars0, added0, true⟩
            else continueWith c0 st
    | .TVec known_items type_param non_empty =>
      let known_item :=
        if isIntegerString array_key = true then
          match known_items with
          | some items =>
            match strToNat? array_key with
            | some n => items.find? fun it => it.1 = n
            | none => none
          | none => none
        else none
      match known_item with
      | some it => continueWith it.2.2 ⟨vars0, added0, it.2.1⟩
      | none =>
        match get_value_param (.TVec known_items type_param non_empty) with
        | none => none
        | some c0 =>
          if (has_isset = true ∨ has_inverted_isset = true) ∧
              (btreeGet new_assertions new_base_key).isSome = true then
            let c1 := if has_inverted_isset = true ∧ new_base_key = key then
                c0.add_type .TNull
              else c0
            continueWith c1 ⟨vars0, added0, true⟩
          else continueWith c0 st
    | .TString => some (st, some (some get_string))
    | .TLiteralString _ => some (st, some (some get_string))
    | .TStringWithFlags _ _ _ => some (st, some (some get_string))
    | .TNothing => some (st, some (some (get_mixed_maybe_from_loop inside_loop)))
    | .TMixedFromLoopIsset =>
      some (st, some (some (get_mixed_maybe_from_loop inside_loop)))
    | .TNamedObject name (some type_params) =>
      if name = "HH\\KeyedContainer" ∨ name = "HH\\Container" then
        match (if name = "HH\\KeyedContainer" then type_params.get? 1
          else type_params.get? 0) with
        | none => none
        | some c0 =>
          if (has_isset = true ∨ has_inverted_isset = true) ∧
              (btreeGet new_assertions new_base_key).isSome = true then
            let c1 := if has_inverted_isset = true ∧ new_base_key = key then
                c0.add_type .TNull
              else c0
            continueWith c1 ⟨vars0, added0, true⟩
          else continueWith c0 st
      else some (st, some (some get_mixed_any))
    | _ => some (st, some (some get_mixed_any))

/-- Per-atomic body of the `->` / `::$` branch of `get_value_for_key`
(reconciler.rs:879-947).  The property-type pipeline is the abstract codebase
oracle; a memoized-method path (`property_name` ending in `()`) panics. -/
def gvkPropAtomics (codebase : CodebaseInfo) (new_base_key property_name : String) :
    List TAtomic → GvkState → Option TUnion →
    Option (GvkState × Option (Option TUnion))
  | [], st, _ => some (st, none)
  | atomic0 :: restAtomics, ⟨vars0, added0, pu0⟩, acc =>
    let continueWith :
        TUnion → GvkState → Option (GvkState × Option (Option TUnion)) :=
      fun class_property_type st1 =>
        match st1 with
        | ⟨vars1, added1, pu1⟩ =>
          let new_base_type :=
            match acc with
            | some nbt => add_union_type nbt class_property_type
            | none => class_property_type
          gvkPropAtomics codebase new_base_key property_name restAtomics
            ⟨varsInsert vars1 new_base_key new_base_type, added1, pu1⟩
            (some new_base_type)
    let st : GvkState := ⟨vars0, added0, pu0⟩
    match atomic0 with
    | .TNull => continueWith get_null st
    | .TMixed => continueWith get_mixed_any st
    | .TMixedAny => continueWith get_mixed_any st
    | .TTruthyMixed => continueWith get_mixed_any st
    | .TFalsyMixed => continueWith get_mixed_any st
    | .TNonnullMixed => continueWith get_mixed_any st
    | .TObject => continueWith get_mixed_any st
    | .TNamedObject fq_class_name _ =>
      if fq_class_name = "stdClass" then continueWith get_mixed_any st
      else if codebase.class_exists fq_class_name = false then
        continueWith get_mixed_any st
      else if strEndsWith property_name "()" then none
      else
        match codebase.get_property_type fq_class_name property_name with
        | some t => continueWith t st
        | none => some (st, some none)
    | _ => continueWith get_mixed_any st

/-- The divider loop of `get_value_for_key` (reconciler.rs:700-954); returns
the state plus the function's result, `none` outermost on panic. -/
def gvkWalk (codebase : CodebaseInfo) (key : String) (new_assertions : NTMap)
    (has_isset has_inverted_isset inside_loop : Bool) :
    List String → String → GvkState → Option (GvkState × Option TUnion)
  | [], base_key, st => some (st, varsGet st.vars_in_scope base_key)
  | divider :: rest, base_key, st =>
    if divider = "[" then
      match rest with
      | [] => none
      | array_key :: rest1 =>
        let new_base_key := base_key ++ "[" ++ array_key ++ "]"
        let afterAtomics :
            GvkState → Option (GvkState × Option (Option TUnion)) :=
          fun st0 =>
            if (varsGet st0.vars_in_scope new_base_key).isSome then
              some (st0, none)
            else
              match varsGet st0.vars_in_scope base_key with
              | none => none
              | some base_union =>
                gvkArrayAtomics key new_base_key array_key new_assertions
                  has_isset has_inverted_isset inside_loop base_union.types
                  st0 none
        match afterAtomics st with
        | none => none
        | some (st1, some r) => some (st1, r)
        | some (st1, none) =>
          match st1 with
          | ⟨vars1, added1, pu1⟩ =>
            match rest1 with
            | [] =>
              some (⟨vars1, added1, pu1⟩, varsGet vars1 new_base_key)
            | _ :: rest2 =>
              gvkWalk codebase key new_assertions has_isset has_inverted_isset
                inside_loop rest2 new_base_key ⟨vars1, added1, pu1⟩
    else if divider = "->" ∨ divider = "::$" then
      match rest with
      | [] => none
      | property_name :: rest1 =>
        let new_base_key := base_key ++ "->" ++ property_name
        let afterAtomics :
            GvkState → Option (GvkState × Option (Option TUnion)) :=
          fun st0 =>
            if (varsGet st0.vars_in_scope new_base_key).isSome then
              some (st0, none)
            else
              match varsGet st0.vars_in_scope base_key with
              | none => none
              | some base_union =>
                gvkPropAtomics codebase new_base_key property_name
                  base_union.types st0 none
        match afterAtomics st with
        | none => none
        | some (st1, some r) => some (st1, r)
        | some (st1, none) =>
          match st1 with
          | ⟨vars1, added1, pu1⟩ =>
            gvkWalk codebase key new_assertions has_isset has_inverted_isset
              inside_loop rest1 new_base_key ⟨vars1, added1, pu1⟩
    else some (st, none)

/-- reconciler.rs:632-961 `get_value_for_key`. -/
def get_value_for_key (codebase : CodebaseInfo) (key : String) (st : GvkState)
    (new_assertions : NTMap) (has_isset has_inverted_isset inside_loop : Bool) :
    Option (GvkState × Option TUnion) :=
  match break_up_path_into_parts key with
  | [] => none
  | [_single] => some (st, varsGet st.vars_in_scope key)
  | base0 :: rest0 =>
    match (if ¬(strStartsWith base0 "$" = true) ∧ rest0.length > 2 ∧
          (match rest0.head? with
           | some h => strStartsWith h "::$"
           | none => false) = true then
        match rest0 with
        | p1 :: p2 :: restp => (base0 ++ p1 ++ p2, restp)
        | _ => (base0, rest0)
      else (base0, rest0)) with
    | (base_key, key_parts) =>
    if (varsGet st.vars_in_scope base_key).isSome then
      gvkWalk codebase key new_assertions has_isset has_inverted_isset
        inside_loop key_parts base_key st
    else if strContains base_key "::" then
      let base_key_parts := strSplitOn base_key "::"
      let fq_class_name := (base_key_parts.get? 0).getD ""
      let const_name := (base_key_parts.get? 1).getD ""
      if codebase.class_exists fq_class_name = false then some (st, none)
      else
        match codebase.get_class_constant fq_class_name const_name with
        | some class_constant =>
          gvkWalk codebase key new_assertions has_isset has_inverted_isset
            inside_loop key_parts base_key
            { st with vars_in_scope :=
                (varsInsert st.vars_in_scope base_key class_constant) }
        | none => some (st, none)
    else some (st, none)

end Hakana

namespace Hakana

/-- Join path parts back into a string (Rust `key_parts.join("")`). -/
def strJoinAll (l : List String) : String :=
  String.mk (l.foldl (fun acc s => acc ++ s.toList) [])

def dictItemsReplace (items : List (DictKey × Bool × TUnion)) (k : DictKey)
    (v : Bool × TUnion) : List (DictKey × Bool × TUnion) :=
  if items.any (fun it => it.1 = k) then
    items.map fun it => if it.1 = k then (k, v.1, v.2) else it
  else items ++ [(k, v.1, v.2)]

def vecItemsReplace (items : List (Nat × Bool × TUnion)) (k : Nat)
    (v : Bool × TUnion) : List (Nat × Bool × TUnion) :=
  if items.any (fun it => it.1 = k) then
    items.map fun it => if it.1 = k then (k, v.1, v.2) else it
  else items ++ [(k, v.1, v.2)]

/-- The state `reconcile_keyed_types` threads: the scope context pieces it
mutates, the data-flow graph, and the changed/added id sets. -/
structure ReconcilerState where
  vars_in_scope : List (String × TUnion)
  data_flow_graph : DataFlowGraph
  allow_taints : Bool
  changed_var_ids : List String
  added_var_ids : List String

mutual
/-- reconciler.rs:341-445 `adjust_array_type`: drop the trailing `]`, key and
`[` parts, materialize the refinement into the base dict/vec known items, and
propagate upward when the base path itself ends in `]`.  Recursion is bounded
by a fuel argument (exhaustion models divergence and cannot occur for the
fuel the caller supplies). -/
def adjust_array_type : Nat → List String → ReconcilerState → TUnion →
    Option ReconcilerState
  | 0, _, _, _ => none
  | fuel + 1, key_parts, st, result_type =>
    let p1 := key_parts.dropLast
    match p1.getLast? with
    | none => none
    | some array_key =>
      let key_parts2 := (p1.dropLast).dropLast
      if strStartsWith array_key "$" then some st
      else
        let has_string_offset :=
          strStartsWith array_key "'" || strStartsWith array_key "\""
        let arraykey_offset :=
          if has_string_offset then
            String.mk ((array_key.toList.drop 1).dropLast)
          else array_key
        let base_key := strJoinAll key_parts2
        match varsGet st.vars_in_scope base_key with
        | none => some st
        | some existing_type =>
          match adjustAtomics fuel key_parts2 base_key array_key
              arraykey_offset has_string_offset result_type
              existing_type.types st [] with
          | none => none
          | some (st1, newAtoms) =>
            match st1 with
            | ⟨v1, g1, a1, c1, d1⟩ =>
              some ⟨varsInsert v1 base_key (existing_type.withTypes newAtoms),
                g1, a1, c1, d1⟩
  termination_by structural fuel => fuel

/-- The `for base_atomic_type in existing_type.types.iter_mut()` loop of
`adjust_array_type` (reconciler.rs:373-440). -/
def adjustAtomics : Nat → List String → String → String → String → Bool →
    TUnion → List TAtomic → ReconcilerState → List TAtomic →
    Option (ReconcilerState × List TAtomic)
  | 0, _, _, _, _, _, _, _, _, _ => none
  | _ + 1, _, _, _, _, _, _, [], st, accAtoms => some (st, accAtoms)
  | fuel + 1, key_parts2, base_key, array_key, arraykey_offset,
      has_string_offset, result_type, atomic0 :: rest, st, accAtoms =>
    let base_atomic_type :=
      match atomic0 with
      | .TTypeAlias _ (some as_type) => as_type
      | a => a
    match base_atomic_type with
    | .TDict known_items params non_empty =>
      let dictkey? :=
        if has_string_offset then some (DictKey.Str arraykey_offset)
        else
          match strToNat? arraykey_offset with
          | some n => some (DictKey.Int n)
          | none => none
      match dictkey? with
      | none =>
        adjustAtomics fuel key_parts2 base_key array_key arraykey_offset
          has_string_offset result_type rest st
          (accAtoms ++ [TAtomic.TDict known_items params non_empty])
      | some dictkey =>
        let newItems :=
          match known_items with
          | some items => dictItemsReplace items dictkey (false, result_type)
          | none => [(dictkey, false, result_type)]
        let new_atomic := TAtomic.TDict (some newItems) params non_empty
        let st1 := { st with changed_var_ids :=
          (listInsert st.changed_var_ids (base_key ++ "[" ++ array_key ++ "]")) }
        if key_parts2.getLast? = some "]" then
          match adjust_array_type fuel key_parts2 st1 (wrap_atomic new_atomic) with
          | none => none
          | some st2 =>
            match st2 with
            | ⟨v2, g2, a2, c2, d2⟩ =>
              adjustAtomics fuel key_parts2 base_key array_key arraykey_offset
                has_string_offset result_type rest ⟨v2, g2, a2, c2, d2⟩
                (accAtoms ++ [new_atomic])
        else
          adjustAtomics fuel key_parts2 base_key array_key arraykey_offset
            has_string_offset result_type rest st1 (accAtoms ++ [new_atomic])
    | .TVec known_items type_param non_empty =>
      let new_atomic :=
        match strToNat? arraykey_offset with
        | some n =>
          TAtomic.TVec
            (some (match known_items with
              | some items => vecItemsReplace items n (false, result_type)
              | none => [(n, false, result_type)]))
            type_param non_empty
        | none => TAtomic.TVec known_items type_param non_empty
      let st1 := { st with changed_var_ids :=
        (listInsert st.changed_var_ids (base_key ++ "[" ++ array_key ++ "]")) }
      if key_parts2.getLast? = some "]" then
        match adjust_array_type fuel key_parts2 st1 (wrap_atomic new_atomic) with
        | none => none
        | some st2 =>
          match st2 with
          | ⟨v2, g2, a2, c2, d2⟩ =>
            adjustAtomics fuel key_parts2 base_key array_key arraykey_offset
              has_string_offset result_type rest ⟨v2, g2, a2, c2, d2⟩
              (accAtoms ++ [new_atomic])
      else
        adjustAtomics fuel key_parts2 base_key array_key arraykey_offset
          has_string_offset result_type rest st1 (accAtoms ++ [new_atomic])
    | other =>
      adjustAtomics fuel key_parts2 base_key array_key arraykey_offset
        has_string_offset result_type rest st (accAtoms ++ [other])
  termination_by structural fuel => fuel
end

/-- Fuel sufficient for `adjust_array_type` on the given scope: one unit per
path level plus one per atomic of the widest union in scope, per level. -/
def adjustFuel (key_parts : List String) (vars : List (String × TUnion)) : Nat :=
  (key_parts.length + 2) *
    (vars.foldl (fun acc p => max acc p.2.types.length) 0 + 4)

end Hakana

namespace Hakana

/-- The per-assertion reconciler (assertion_reconciler.rs, outside the claim
scope): given the assertion, the current candidate type, the
possibly-undefined flag and the running failure status, produce a refined
union and the new status.  The claims hold for every such oracle. -/
abbrev ReconcileOracle :=
  Assertion → Option TUnion → Bool → ReconciliationStatus →
    TUnion × ReconciliationStatus

/-- The per-key flag accumulators of reconcile_keyed_types (reconciler.rs:70-80). -/
structure AssertionFlags where
  has_negation : Bool
  has_isset : Bool
  has_inverted_isset : Bool
  has_falsyish : Bool
  has_count_check : Bool
  is_equality : Bool

def AssertionFlags.initial : AssertionFlags :=
  ⟨false, false, false, false, false, false⟩

/-- reconciler.rs:85-125: the `hakana taints` pseudo-path mutates the context
instead of the types: `RemoveTaints` rewires a variable's provenance through a
fresh assignment node whose incoming edges carry the removed taints;
`IgnoreTaints`/`DontIgnoreTaints` toggle `allow_taints`. -/
def apply_taint_assertion (pos : HPos) (st : ReconcilerState) (a : Assertion) :
    ReconcilerState :=
  match a with
  | .RemoveTaints k taints =>
    match varsGet st.vars_in_scope k with
    | some existing_var_type =>
      let new_parent_node := DataFlowNode.get_for_assignment k pos
      let g1 := existing_var_type.parent_nodes.foldl
        (fun g old_parent_node =>
          g.add_path old_parent_node new_parent_node .Default [] taints)
        st.data_flow_graph
      { st with
        data_flow_graph := (g1.add_node new_parent_node).getD g1
        vars_in_scope := varsInsert st.vars_in_scope k
          (existing_var_type.withParentNodes [new_parent_node]) }
    | none => st
  | .IgnoreTaints => { st with allow_taints := false }
  | .DontIgnoreTaints => { st with allow_taints := true }
  | _ => st

/-- reconciler.rs:82-143: the flag-collection loop over all assertions of a
key (with the `hakana taints` special path applied en route). -/
def scan_assertions (key : String) (pos : HPos) (st : ReconcilerState)
    (new_type_parts : List (List Assertion)) :
    ReconcilerState × AssertionFlags :=
  new_type_parts.foldl
    (fun acc part =>
      part.foldl
        (fun (acc2 : ReconcilerState × AssertionFlags) assertion =>
          match acc2 with
          | (stA, ⟨hneg, hiss, hinv, hfal, hcnt, heq⟩) =>
            if key = "hakana taints" then
              (apply_taint_assertion pos stA assertion,
                ⟨hneg, hiss, hinv, hfal, hcnt, heq⟩)
            else
              (stA,
                { has_negation := hneg || assertion.has_negation
                  has_isset := hiss || assertion.has_isset
                  has_inverted_isset := hinv ||
                    (match assertion with | .IsNotIsset => true | _ => false)
                  has_falsyish := hfal ||
                    (match assertion with | .Falsy => true | _ => false)
                  has_count_check := hcnt ||
                    (match assertion with
                     | .NonEmptyCountable _ => true
                     | _ => false)
                  is_equality := heq ||
                    assertion.has_non_isset_equality }))
        acc)
    (st, AssertionFlags.initial)

/-- reconciler.rs:207-209: an emptied candidate union becomes the single
atomic `nothing`, never a zero-atomic union. -/
def ensure_nonempty_candidate (u : TUnion) : TUnion :=
  if u.types.isEmpty then u.withTypes [.TNothing] else u

/-- reconciler.rs:179-226 inner loop: OR-join one disjunct by reconciling the
current candidate against each assertion and union-adding the results. -/
def reconcile_disjunct (oracle : ReconcileOracle) (result_type : Option TUnion)
    (possibly_undefined : Bool) (part : List Assertion)
    (failed : ReconciliationStatus) :
    Option TUnion × ReconciliationStatus :=
  part.foldl
    (fun (acc : Option TUnion × ReconciliationStatus) assertion =>
      match acc with
      | (accTy, accSt) =>
        match oracle assertion result_type possibly_undefined accSt with
        | (rTy, rSt) =>
          let result_type_candidate := ensure_nonempty_candidate rTy
          (some (match accTy with
            | some orred_type => add_union_type result_type_candidate orred_type
            | none => result_type_candidate), rSt))
    (none, failed)

/-- reconciler.rs:176-228 outer loop: fold the conjunction of disjuncts. -/
def reconcile_disjuncts (oracle : ReconcileOracle)
    (new_type_parts : List (List Assertion)) (initial : Option TUnion)
    (possibly_undefined : Bool) (failed0 : ReconciliationStatus) :
    Option TUnion × ReconciliationStatus :=
  new_type_parts.foldl
    (fun acc part =>
      match acc with
      | (accTy, accSt) =>
        reconcile_disjunct oracle accTy possibly_undefined part accSt)
    (initial, failed0)

/-- reconciler.rs:236-248: is some disjunct a single scalar-restricting
`IsType`/`IsEqual` assertion. -/
def has_scalar_restriction_check (new_type_parts : List (List Assertion)) : Bool :=
  new_type_parts.any fun part =>
    match part with
    | [assertion] =>
      match assertion with
      | .IsType t => t.is_some_scalar
      | .IsEqual t => t.is_some_scalar
      | _ => false
    | _ => false

/-- reconciler.rs:234-278: after reconciliation the refined union's parent
nodes are copied from the pre-adjustment union, except that a whole-program
graph plus a scalar-restricting disjunct reroutes provenance through a single
fresh assignment node reached by `ScalarTypeGuard` edges from every original
parent. -/
def provenance_adjustment (key : String) (pos : HPos) (graph : DataFlowGraph)
    (before_adjustment : Option TUnion) (result_type : TUnion)
    (new_type_parts : List (List Assertion)) : TUnion × DataFlowGraph :=
  match before_adjustment with
  | none => (result_type, graph)
  | some before =>
    match graph.kind with
    | .WholeProgram _ =>
      if has_scalar_restriction_check new_type_parts then
        let scalar_check_node := DataFlowNode.get_for_assignment key pos
        let g1 := before.parent_nodes.foldl
          (fun g parent_node =>
            g.add_path parent_node scalar_check_node .ScalarTypeGuard [] [])
          graph
        (result_type.withParentNodes [scalar_check_node],
          (g1.add_node scalar_check_node).getD g1)
      else (result_type.withParentNodes before.parent_nodes, graph)
    | .FunctionBody => (result_type.withParentNodes before.parent_nodes, graph)

/-- reconciler.rs:306-326: after a real assertion changes a non-`$this`,
non-array path, drop every other scope entry rooted at it that the batch's
`new_types` map does not mention. -/
def invalidate_related_paths (vars_in_scope : List (String × TUnion))
    (key : String) (is_real : Bool) (new_types : NTMap) :
    List (String × TUnion) :=
  vars_in_scope.filter fun p =>
    !(decide ¬(p.1 = key) && is_real && !(btreeGet new_types p.1).isSome &&
      var_has_root p.1 key)

/-- reconciler.rs:65-334: the body of the `for (key, new_type_parts)` loop. -/
def process_key (oracle : ReconcileOracle) (codebase : CodebaseInfo)
    (old_new_types new_types : NTMap) (pos : HPos) (inside_loop : Bool)
    (key : String) (new_type_parts : List (List Assertion))
    (st0 : ReconcilerState) : Option ReconcilerState :=
  if strContains key "::" && !strContains key "$" && !strContains key "[" then
    some st0
  else
    match scan_assertions key pos st0 new_type_parts with
    | (⟨vars1, graph1, allow1, changed1, added1⟩,
        ⟨has_negation, has_isset, has_inverted_isset, has_falsyish, _,
          is_equality⟩) =>
      let is_real :=
        assertionListListBeq ((btreeGet old_new_types key).getD []) new_type_parts
      let did_type_exist := (varsGet vars1 key).isSome
      let gvkRes : Option (GvkState × Option TUnion) :=
        match varsGet vars1 key with
        | some existing_type =>
          some (⟨vars1, added1, false⟩, some existing_type)
        | none =>
          get_value_for_key codebase key ⟨vars1, added1, false⟩ new_types
            has_isset has_inverted_isset inside_loop
      match gvkRes with
      | none => none
      | some (⟨gvars, gadded, possibly_undefined⟩, result_type0) =>
        if (match result_type0 with
            | some rt => rt.types.isEmpty
            | none => false) then none
        else
          match reconcile_disjuncts oracle new_type_parts result_type0
              possibly_undefined .Ok with
          | (none, _) => none
          | (some result_type2, failed_reconciliation) =>
            if ¬did_type_exist ∧ result_type2.is_nothing = true then
              some ⟨gvars, graph1, allow1, changed1, gadded⟩
            else
              match provenance_adjustment key pos graph1 result_type0
                  result_type2 new_type_parts with
              | (result_type3, graph3) =>
                let type_changed :=
                  match result_type0 with
                  | some before => !(TUnion.beq result_type3 before)
                  | none => true
                let afterAdjust : Option ReconcilerState :=
                  if strEndsWith key "]" = true ∧
                      (type_changed = true ∨ did_type_exist = false) ∧
                      has_inverted_isset = false ∧
                      is_equality = false then
                    let key_parts := break_up_path_into_parts key
                    adjust_array_type (adjustFuel key_parts gvars)
                      key_parts ⟨gvars, graph3, allow1, changed1, gadded⟩
                      result_type3
                  else some ⟨gvars, graph3, allow1, changed1, gadded⟩
                match afterAdjust with
                | none => none
                | some st4 =>
                  match st4 with
                  | ⟨vars4, graph4, allow4, changed4, added4⟩ =>
                    match (if type_changed = true ∨
                          failed_reconciliation ≠ ReconciliationStatus.Ok then
                        ((if ¬(key = "$this") ∧ strEndsWith key "]" = false then
                            invalidate_related_paths vars4 key is_real new_types
                          else vars4), listInsert changed4 key)
                      else if has_negation = false ∧
                          has_falsyish = false ∧ has_isset = false then
                        (vars4, listInsert changed4 key)
                      else (vars4, changed4)) with
                    | (vars5, changed5) =>
                      some ⟨varsInsert vars5 key result_type3,
                        graph4, allow4, changed5, added4⟩

def reconcileFold (oracle : ReconcileOracle) (codebase : CodebaseInfo)
    (old_new_types new_types : NTMap) (pos : HPos) (inside_loop : Bool) :
    List (String × List (List Assertion)) → ReconcilerState →
    Option ReconcilerState
  | [], st => some st
  | (key, new_type_parts) :: rest, st =>
    match process_key oracle codebase old_new_types new_types pos inside_loop
        key new_type_parts st with
    | none => none
    | some st1 =>
      reconcileFold oracle codebase old_new_types new_types pos inside_loop
        rest st1

/-- reconciler.rs:34-339 `reconcile_keyed_types`: expand nested isset
assertions, process every key of the batch in map order, and finally drop
from scope every sub-path that `get_value_for_key` materialized
(`added_var_ids`). -/
def reconcile_keyed_types (oracle : ReconcileOracle) (codebase : CodebaseInfo)
    (new_types : NTMap) (pos : HPos) (inside_loop : Bool)
    (st0 : ReconcilerState) : Option ReconcilerState :=
  if new_types.isEmpty then some st0
  else
    match add_nested_assertions new_types st0.vars_in_scope with
    | none => none
    | some expanded =>
      match reconcileFold oracle codebase new_types expanded pos inside_loop
          expanded st0 with
      | none => none
      | some st =>
        match st with
        | ⟨vars, graph, allow, changed, added⟩ =>
          some ⟨vars.filter (fun kv => !added.contains kv.1),
            graph, allow, changed, added⟩

end Hakana

namespace Hakana

/-- The candidate returned by `ensure_nonempty_candidate` always has at least
one atomic. -/
theorem ensure_nonempty_candidate_types_ne_nil (u : TUnion) :
    (ensure_nonempty_candidate u).types ≠ [] := by
  obtain ⟨t, pn, pu, ifi⟩ := u
  by_cases h : (TUnion.mk t pn pu ifi).types.isEmpty = true
  · simp only [ensure_nonempty_candidate, if_pos h]
    simp [TUnion.withTypes, TUnion.types]
  · simp only [ensure_nonempty_candidate, if_neg h]
    exact fun hnil => h (by simp [TUnion.types] at hnil ⊢; exact hnil)

/-- `add_union_type` keeps every atomic of its first argument, so it cannot
empty a nonempty union. -/
theorem add_union_type_types_ne_nil (a b : TUnion) (ha : a.types ≠ []) :
    (add_union_type a b).types ≠ [] := by
  simp only [add_union_type, TUnion.types]
  intro h
  rcases List.append_eq_nil.mp h with ⟨h1, _⟩
  exact ha h1

/-- A fold whose step only ever puts nonempty unions into the `some` case of
its first component preserves that invariant of the accumulator. -/
theorem foldl_fst_nonempty {α : Type}
    (f : (Option TUnion × ReconciliationStatus) → α →
      Option TUnion × ReconciliationStatus)
    (hf : ∀ acc a u, (f acc a).1 = some u → u.types ≠ []) :
    ∀ (l : List α) (acc : Option TUnion × ReconciliationStatus),
      (∀ u, acc.1 = some u → u.types ≠ []) →
      ∀ u, (l.foldl f acc).1 = some u → u.types ≠ []
  | [], _, hacc, u, h => hacc u h
  | a :: l, acc, _, u, h =>
    foldl_fst_nonempty f hf l (f acc a) (fun v hv => hf acc a v hv) u h

/-- The disjunct fold of the reconciler yields a nonempty union whenever it
yields `some` union at all. -/
theorem reconcile_disjunct_fst_nonempty (oracle : ReconcileOracle)
    (result_type : Option TUnion) (possibly_undefined : Bool)
    (part : List Assertion) (failed : ReconciliationStatus) :
    ∀ u, (reconcile_disjunct oracle result_type possibly_undefined part
      failed).1 = some u → u.types ≠ [] := by
  unfold reconcile_disjunct
  refine foldl_fst_nonempty _ ?_ part (none, failed) (fun u h => by cases h)
  intro acc a u h
  obtain ⟨accTy, accSt⟩ := acc
  rcases ho : oracle a result_type possibly_undefined accSt with ⟨rTy, rSt⟩
  simp only [ho] at h
  cases accTy with
  | none =>
    simp only [Option.some.injEq] at h
    exact h ▸ ensure_nonempty_candidate_types_ne_nil rTy
  | some orred =>
    simp only [Option.some.injEq] at h
    exact h ▸ add_union_type_types_ne_nil _ _
      (ensure_nonempty_candidate_types_ne_nil rTy)

/-- C4: an emptied reconciliation candidate is replaced by the single atomic
`nothing` (`ensure_nonempty_candidate`), and consequently the reconciler's
conjunction-of-disjuncts fold never produces a zero-atomic union: whenever it
yields `some` union (the incoming union, if any, being nonempty), that union
has at least one atomic. -/
theorem c4_reconciled_unions_nonempty (oracle : ReconcileOracle)
    (new_type_parts : List (List Assertion)) (initial : Option TUnion)
    (possibly_undefined : Bool) (failed0 : ReconciliationStatus)
    (hinit : ∀ v, initial = some v → v.types ≠ []) :
    (∀ w : TUnion, w.types = [] →
      ensure_nonempty_candidate w = w.withTypes [.TNothing]) ∧
    (∀ u, (reconcile_disjuncts oracle new_type_parts initial
        possibly_undefined failed0).1 = some u → u.types ≠ []) := by
  constructor
  · intro w hw
    simp only [ensure_nonempty_candidate]
    rw [if_pos (by simp [hw])]
  · unfold reconcile_disjuncts
    refine foldl_fst_nonempty _ ?_ new_type_parts (initial, failed0)
      (fun u h => hinit u h)
    intro acc part u h
    obtain ⟨accTy, accSt⟩ := acc
    exact reconcile_disjunct_fst_nonempty oracle accTy possibly_undefined part
      accSt u h

/-- An assertion reconciler that keeps the candidate unchanged (and turns an
absent candidate into mixed). -/
def c4oracle : ReconcileOracle :=
  fun _ rt _ f => (rt.getD (TUnion.mk [] [] false false), f)

theorem c4_reconciled_unions_nonempty_witness :
    ensure_nonempty_candidate (TUnion.mk [] [] false false) =
      (TUnion.mk [] [] false false).withTypes [.TNothing] ∧
    (reconcile_disjuncts c4oracle [[Assertion.Falsy]] none false .Ok).1 =
      some (wrap_atomic .TNothing) ∧
    (wrap_atomic .TNothing).types ≠ [] :=
  ⟨(c4_reconciled_unions_nonempty c4oracle [[Assertion.Falsy]] none false .Ok
      (fun _ h => nomatch h)).1 _ rfl,
   rfl,
   (c4_reconciled_unions_nonempty c4oracle [[Assertion.Falsy]] none false .Ok
      (fun _ h => nomatch h)).2 (wrap_atomic .TNothing) rfl⟩

end Hakana

namespace Hakana

/-- C5: after reconciliation, when the data-flow graph is whole-program and
some disjunct is a single scalar-restricting `IsType`/`IsEqual` assertion, the
refined union's parent set becomes exactly one fresh assignment node, a
`ScalarTypeGuard` edge runs from every original parent to that node, and (the
fresh node's id being new) every original parent is absent from the refined
union's parent set; in every other case the parent nodes are copied unchanged
from the pre-adjustment union and the graph is untouched. -/
theorem c5_scalar_type_guard_provenance (key : String) (pos : HPos)
    (graph : DataFlowGraph) (before result_type : TUnion)
    (new_type_parts : List (List Assertion)) (wpk : WholeProgramKind)
    (hfresh : ∀ p ∈ before.parent_nodes,
      p.id ≠ (DataFlowNode.get_for_assignment key pos).id) :
    ((graph.kind = .WholeProgram wpk ∧
        has_scalar_restriction_check new_type_parts = true) →
      (provenance_adjustment key pos graph (some before) result_type
          new_type_parts).1.parent_nodes =
        [DataFlowNode.get_for_assignment key pos] ∧
      (∀ p ∈ before.parent_nodes,
        (provenance_adjustment key pos graph (some before) result_type
            new_type_parts).2.forward_edges p.id
          (DataFlowNode.get_for_assignment key pos).id =
          some ⟨.ScalarTypeGuard, [], []⟩) ∧
      (∀ p ∈ before.parent_nodes,
        p ∉ (provenance_adjustment key pos graph (some before) result_type
          new_type_parts).1.parent_nodes)) ∧
    ((graph.kind = .FunctionBody ∨
        has_scalar_restriction_check new_type_parts = false) →
      provenance_adjustment key pos graph (some before) result_type
        new_type_parts =
        (result_type.withParentNodes before.parent_nodes, graph)) := by
  constructor
  · rintro ⟨hk, hscal⟩
    refine ⟨?_, ?_, ?_⟩
    · simp only [provenance_adjustment, hk]
      rw [if_pos hscal]
      obtain ⟨t, pn, pu, ifi⟩ := result_type
      rfl
    · intro p hp
      simp only [provenance_adjustment, hk]
      rw [if_pos hscal]
      dsimp only
      rw [add_node_getD_forward]
      exact foldl_add_path_edge _ _ _ _ (hfresh p hp) graph (Or.inl hp)
    · intro p hp hmem
      simp only [provenance_adjustment, hk] at hmem
      rw [if_pos hscal] at hmem
      have hpeq : p = DataFlowNode.get_for_assignment key pos := by
        obtain ⟨t, pn, pu, ifi⟩ := result_type
        simpa [TUnion.withParentNodes, TUnion.parent_nodes] using hmem
      exact hfresh p hp (by rw [hpeq])
  · intro hor
    rcases hor with hk | hscal
    · simp only [provenance_adjustment, hk]
    · cases hk2 : graph.kind with
      | FunctionBody => simp only [provenance_adjustment, hk2]
      | WholeProgram w =>
        simp only [provenance_adjustment, hk2]
        rw [if_neg (by simp [hscal])]

/-- The pre-reconciliation parent node of the C5 witness. -/
def c5parent : DataFlowNode := DataFlowNode.get_for_lvar "$x" ⟨0, 1, 2⟩

/-- A pre-adjustment union whose sole parent is `c5parent`. -/
def c5before : TUnion := TUnion.mk [.TMixedAny] [c5parent] false false

def c5g : DataFlowGraph := DataFlowGraph.new (.WholeProgram .Taint)

theorem c5_scalar_type_guard_provenance_witness :
    (provenance_adjustment "$x" ⟨0, 7, 8⟩ c5g (some c5before)
        (wrap_atomic .TInt) [[Assertion.IsType .TInt]]).1.parent_nodes =
      [DataFlowNode.get_for_assignment "$x" ⟨0, 7, 8⟩] ∧
    (provenance_adjustment "$x" ⟨0, 7, 8⟩ c5g (some c5before)
        (wrap_atomic .TInt) [[Assertion.IsType .TInt]]).2.forward_edges
        c5parent.id (DataFlowNode.get_for_assignment "$x" ⟨0, 7, 8⟩).id =
      some ⟨.ScalarTypeGuard, [], []⟩ ∧
    c5parent ∉ (provenance_adjustment "$x" ⟨0, 7, 8⟩ c5g (some c5before)
        (wrap_atomic .TInt) [[Assertion.IsType .TInt]]).1.parent_nodes :=
  have h := c5_scalar_type_guard_provenance "$x" ⟨0, 7, 8⟩ c5g c5before
    (wrap_atomic .TInt) [[Assertion.IsType .TInt]] .Taint
    (by
      intro p hp
      simp only [c5before, TUnion.parent_nodes, List.mem_singleton] at hp
      subst hp
      decide)
  ⟨(h.1 ⟨rfl, rfl⟩).1,
   (h.1 ⟨rfl, rfl⟩).2.1 c5parent (List.Mem.head _),
   (h.1 ⟨rfl, rfl⟩).2.2 c5parent (List.Mem.head _)⟩

end Hakana

namespace Hakana

/-- Looking a key up past a non-matching head entry. -/
theorem varsGet_cons_ne (a : String) (w : TUnion)
    (rest : List (String × TUnion)) (p : String) (h : ¬(a = p)) :
    varsGet ((a, w) :: rest) p = varsGet rest p := by
  simp only [varsGet]
  rw [List.find?_cons_of_neg _ (by simp [h])]

/-- Looking a key up at a matching head entry. -/
theorem varsGet_cons_self (a : String) (w : TUnion)
    (rest : List (String × TUnion)) :
    varsGet ((a, w) :: rest) a = some w := by
  simp only [varsGet]
  rw [List.find?_cons_of_pos _ (by simp)]
  rfl

/-- C6: `invalidate_related_paths` removes exactly the scope entries that are
distinct from the narrowed key, belong to a real (not auto-generated)
assertion, are not themselves mentioned in the batch's `new_types` map, and
are rooted at the narrowed variable (sub-paths `key[…]` / `key->…`); every
other entry's binding is unchanged, so re-asserted sub-paths survive. -/
theorem c6_related_paths_invalidated (vars : List (String × TUnion))
    (key p : String) (is_real : Bool) (new_types : NTMap) :
    varsGet (invalidate_related_paths vars key is_real new_types) p =
      if (decide ¬(p = key) && is_real && !(btreeGet new_types p).isSome &&
          var_has_root p key) = true then none
      else varsGet vars p := by
  induction vars with
  | nil =>
    simp only [invalidate_related_paths, List.filter_nil]
    show (none : Option TUnion) = _
    exact (ite_self _).symm
  | cons hd rest ih =>
    obtain ⟨a, w⟩ := hd
    simp only [invalidate_related_paths] at ih ⊢
    rw [List.filter_cons]
    by_cases hap : a = p
    · subst hap
      by_cases hb : (decide ¬(a = key) && is_real &&
          !(btreeGet new_types a).isSome && var_has_root a key) = true
      · rw [if_neg (by rw [hb]; decide), if_pos hb]
        rw [if_pos hb] at ih
        exact ih
      · rw [Bool.not_eq_true] at hb
        rw [if_pos (by rw [hb]; decide), if_neg (by rw [hb]; decide)]
        rw [varsGet_cons_self, varsGet_cons_self]
    · by_cases hkeep : (!(decide ¬(a = key) && is_real &&
          !(btreeGet new_types a).isSome && var_has_root a key)) = true
      · rw [if_pos hkeep, varsGet_cons_ne a w _ p hap,
          varsGet_cons_ne a w rest p hap]
        exact ih
      · rw [if_neg hkeep, varsGet_cons_ne a w rest p hap]
        exact ih

end Hakana

namespace Hakana

/-- Filtering out all entries whose key sits in `added` removes the binding of
every such key. -/
theorem varsGet_filter_not_contains (vars : List (String × TUnion))
    (added : List String) (p : String) (hp : p ∈ added) :
    varsGet (vars.filter fun kv => !added.contains kv.1) p = none := by
  induction vars with
  | nil => rfl
  | cons hd rest ih =>
    obtain ⟨a, w⟩ := hd
    rw [List.filter_cons]
    by_cases hap : a = p
    · subst hap
      rw [if_neg (by simp [hp])]
      exact ih
    · by_cases hk : (!added.contains a) = true
      · rw [if_pos hk, varsGet_cons_ne a w _ p hap]
        exact ih
      · rw [if_neg hk]
        exact ih

/-- C10: whatever sub-paths `get_value_for_key` materialized during a batch
(recorded in `added_var_ids`), `reconcile_keyed_types` drops them from
`vars_in_scope` before returning: every added id is unbound in the final
scope. -/
theorem c10_materialized_subpaths_absent (oracle : ReconcileOracle)
    (codebase : CodebaseInfo) (new_types : NTMap) (pos : HPos)
    (inside_loop : Bool) (st0 st' : ReconcilerState)
    (hne : new_types.isEmpty = false)
    (h : reconcile_keyed_types oracle codebase new_types pos inside_loop st0 =
      some st') :
    ∀ p ∈ st'.added_var_ids, varsGet st'.vars_in_scope p = none := by
  unfold reconcile_keyed_types at h
  rw [if_neg (by simp [hne])] at h
  cases hadd : add_nested_assertions new_types st0.vars_in_scope with
  | none => simp only [hadd] at h; exact nomatch h
  | some expanded =>
    simp only [hadd] at h
    cases hfold : reconcileFold oracle codebase new_types expanded pos
        inside_loop expanded st0 with
    | none => simp only [hfold] at h; exact nomatch h
    | some st =>
      simp only [hfold] at h
      obtain ⟨vars, graph, allow, changed, added⟩ := st
      rw [Option.some.injEq] at h
      subst h
      intro p hp
      exact varsGet_filter_not_contains vars added p hp

/-- The abstract per-assertion reconciler of the C10 witness: keep the
candidate unchanged. -/
def c10oracle : ReconcileOracle := fun _ rt _ f => (rt.getD get_mixed_any, f)

/-- An empty reflection database for the C10 witness. -/
def c10codebase : CodebaseInfo :=
  ⟨fun _ => false, fun _ _ => none, fun _ _ => none⟩

/-- `dict{'k': int}` with no provenance. -/
def c10dict : TUnion :=
  TUnion.mk [.TDict (some [(.Str "k", false, wrap_atomic .TInt)]) none false]
    [] false false

def c10st0 : ReconcilerState :=
  ⟨[("$a", c10dict)], DataFlowGraph.new .FunctionBody, true, [], []⟩

/-- One batch entry refining the materialized sub-path `$a['k']` to int. -/
def c10nt : NTMap := [("$a['k']", [[Assertion.IsType .TInt]])]

def c10run : Option ReconcilerState :=
  reconcile_keyed_types c10oracle c10codebase c10nt ⟨0, 1, 2⟩ false c10st0

def c10final : ReconcilerState := c10run.getD c10st0

theorem c10_materialized_subpaths_absent_witness :
    c10nt.isEmpty = false ∧
    c10run = some c10final ∧
    varsGet c10final.vars_in_scope "$a['k']" = none ∧
    (varsGet c10final.vars_in_scope "$a").isSome = true :=
  ⟨rfl, rfl,
   c10_materialized_subpaths_absent c10oracle c10codebase c10nt ⟨0, 1, 2⟩ false
     c10st0 c10final rfl rfl "$a['k']"
     (by
       rw [show c10final.added_var_ids = ["$a['k']"] from rfl]
       exact List.Mem.head _),
   rfl⟩

end Hakana
